import Mathlib

/-!
Verification development for the elements-miniscript script decoder and
context-validation layer (src/src/miniscript/decode.rs and
src/src/miniscript/context.rs).

The Rust code is shallowly embedded:
* `Terminal` / `MSNode` mirror `Terminal` and `Miniscript` from decode.rs
  (`MSNode` carries the fragment together with its inferred correctness
  type and extra-property bundle; reference-counted `Arc` children become
  plain child nodes).
* The type system (`Type::type_check`, `ExtData::type_check` from the
  `miniscript::types` collaborator module, not part of the extract) and the
  extension hooks (`Ext::from_token_iter`, `Ext::segwit_ctx_checks`) are
  parameters, bundled in `Params`.
* Each `ScriptContext` impl from context.rs becomes a family of functions
  over a closed `Ctx` enumeration, matching the source arm for arm.
* The shift-reduce parser `parse` from decode.rs is embedded as a step
  function `parseStep` iterated by `parseLoop` with explicit fuel;
  `pop().unwrap()` failures and the final `assert_eq!` failures are made
  observable as the `crash` outcome.
-/

/-! ## Keys

`MiniscriptKey` is a collaborator trait; the context layer only consults
`is_uncompressed`, `is_x_only_key` and `to_string`, so a key is embedded as
a record of those observations. -/

structure PubKey where
  name : String
  uncompressed : Bool
  xonly : Bool
deriving DecidableEq, Repr

/-! ## Type-system data (collaborator interface)

Only the fields the embedded layer reads are carried: `ty.corr.base` for
the top-level check, and the `ExtData` fields consulted by the context
checks. -/

/-- The four correctness base kinds (`types::Base`). -/
inductive Base where
  | B
  | V
  | K
  | W
deriving DecidableEq, Repr

structure Correctness where
  base : Base
deriving DecidableEq, Repr

structure Ty where
  corr : Correctness
deriving DecidableEq, Repr

/-- `ext.ops` with its `op_count()` accessor. -/
structure OpLimits where
  op_count : Option Nat
deriving DecidableEq, Repr

/-- The extra-property bundle fields read by context.rs. -/
structure ExtData where
  pk_cost : Nat
  ops : OpLimits
  max_sat_size : Option (Nat × Nat)
  exec_stack_elem_count_sat : Option Nat
  stack_elem_count_sat : Option Nat
deriving DecidableEq, Repr

/-! ## Script resource limits

The `miniscript::limits` module is not part of the extract; the constants
are fixed by the doc comments in context.rs (`MAX_STANDARD_P2WSH_STACK_ITEMS`
(100), the tapscript "1000 limit compared to 100 of segwitv0"
(`MAX_STACK_SIZE`), `MAX_OPS_PER_SCRIPT` (201), "Script size upto 1650 bytes"
(`MAX_SCRIPTSIG_SIZE`), "scripts above 520 bytes are invalid" in Legacy
(`MAX_SCRIPT_ELEMENT_SIZE`), "scripts over 3600 bytes" for segwit policy
(`MAX_STANDARD_P2WSH_SCRIPT_SIZE`), "up to 20 pubkeys" for CHECKMULTISIG
(`MAX_PUBKEYS_PER_MULTISIG`) and the consensus script-size and block-weight
constants of rust-bitcoin. -/

def MAX_OPS_PER_SCRIPT : Nat := 201
def MAX_PUBKEYS_PER_MULTISIG : Nat := 20
def MAX_SCRIPTSIG_SIZE : Nat := 1650
def MAX_SCRIPT_ELEMENT_SIZE : Nat := 520
def MAX_SCRIPT_SIZE : Nat := 10000
def MAX_STACK_SIZE : Nat := 1000
def MAX_STANDARD_P2WSH_SCRIPT_SIZE : Nat := 3600
def MAX_STANDARD_P2WSH_STACK_ITEMS : Nat := 100
def MAX_BLOCK_WEIGHT : Nat := 4000000

/-! ## The AST -/

/-- `Terminal<Pk, Ctx, Ext>` from decode.rs, with the child-node type `C`
abstracted so that `MSNode` below can tie the recursive knot.  The key type
is the concrete `PubKey` above (decode.rs parses `bitcoin::PublicKey`s).
`MultiA` is matched by context.rs but its declaration is not in the
extracted decode.rs `Terminal`; it is included here as the spec's
"batched-multisig-via-checksig-add" fragment (`k (<key>)* n CHECKSIGADD`),
shaped like `Multi`. -/
inductive Terminal (ExtT : Type) (C : Type) where
  | True
  | False
  | PkK (pk : PubKey)
  | PkH (hash : Nat)
  | After (n : Nat)
  | Older (n : Nat)
  | Sha256 (h : Nat)
  | Hash256 (h : Nat)
  | Ripemd160 (h : Nat)
  | Hash160 (h : Nat)
  | Version (n : Nat)
  | OutputsPref (bytes : List Nat)
  | Alt (sub : C)
  | Swap (sub : C)
  | Check (sub : C)
  | DupIf (sub : C)
  | Verify (sub : C)
  | NonZero (sub : C)
  | ZeroNotEqual (sub : C)
  | AndV (a b : C)
  | AndB (a b : C)
  | AndOr (a b c : C)
  | OrB (a b : C)
  | OrD (a b : C)
  | OrC (a b : C)
  | OrI (a b : C)
  | Thresh (k : Nat) (subs : List C)
  | Multi (k : Nat) (keys : List PubKey)
  | MultiA (k : Nat) (keys : List PubKey)
  | Ext (e : ExtT)

/-- `Miniscript<Pk, Ctx, Ext>`: an AST node together with its inferred
correctness type and extra-property bundle. -/
inductive MSNode (ExtT : Type) where
  | mk (node : Terminal ExtT (MSNode ExtT)) (ty : Ty) (ext : ExtData)

def MSNode.node : MSNode ExtT → Terminal ExtT (MSNode ExtT)
  | .mk n _ _ => n

def MSNode.ty : MSNode ExtT → Ty
  | .mk _ t _ => t

def MSNode.ext : MSNode ExtT → ExtData
  | .mk _ _ e => e

/-! ## Context errors -/

/-- `ScriptContextError` from context.rs. -/
inductive ScriptContextError where
  | MalleablePkH
  | MalleableOrI
  | MalleableDupIf
  | CompressedOnly (pk : String)
  | XOnlyKeysNotAllowed (pk : String) (ctx : String)
  | UncompressedKeysNotAllowed
  | MaxWitnessItemssExceeded (actual limit : Nat)
  | MaxOpCountExceeded
  | MaxWitnessScriptSizeExceeded
  | MaxRedeemScriptSizeExceeded
  | MaxScriptSigSizeExceeded
  | ImpossibleSatisfaction
  | CovElementSizeExceeded
  | TaprootMultiDisabled
  | StackSizeLimitExceeded (actual limit : Nat)
  | CheckMultiSigLimitExceeded
  | MultiANotAllowed
  | ExtensionError (s : String)
deriving DecidableEq, Repr

inductive SigType where
  | Ecdsa
  | Schnorr
deriving DecidableEq, Repr

/-- The closed set of `ScriptContext` implementations (spec §9: the sealed
trait becomes a closed enumeration). -/
inductive Ctx where
  | legacy
  | segwitv0
  | tap
  | bareCtx
  | noChecks
deriving DecidableEq, Repr

/-! ## scriptSig serialization length (modelled)

Modelled from the spec: `crate::util::witness_to_scriptsig`, called by
`Legacy::check_witness`, is not part of the extract.  §4.3 describes
`check_witness` as validating a candidate witness against this context's
size ceiling; the Legacy implementation serializes the witness stack as a
legacy scriptSig and measures its byte length.  The standard Script push
encoding is used: an element decodable as a small script integer
(-1..=16, including the empty element for 0) is re-encoded as a single
opcode byte; any other element is a direct push costing its own bytes plus
a 1/2/3-byte push opcode depending on its length. -/

def pushLen (e : List Nat) : Nat :=
  if e.length ≤ 75 then 1 + e.length
  else if e.length ≤ 255 then 2 + e.length
  else 3 + e.length

def elemLen (e : List Nat) : Nat :=
  match e with
  | [] => 1
  | [b] => if (1 ≤ b ∧ b ≤ 16) ∨ b = 129 then 1 else pushLen [b]
  | _ => pushLen e

def witness_to_scriptsig_len (witness : List (List Nat)) : Nat :=
  (witness.map elemLen).sum

/-! ## Per-context checks (context.rs, arm for arm)

`check_terminal_non_malleable` receives a bare fragment; the node-level
checks receive a typed `MSNode`.  The `Segwitv0` global-consensus check
calls the extension hook `Ext::segwit_ctx_checks`, passed in as `es`. -/

def Legacy.check_terminal_non_malleable (frag : Terminal ExtT (MSNode ExtT)) :
    Except ScriptContextError Unit :=
  match frag with
  | .PkH _ => .error .MalleablePkH
  | .OrI _ _ => .error .MalleableOrI
  | .DupIf _ => .error .MalleableDupIf
  | _ => .ok ()

def Legacy.check_witness (witness : List (List Nat)) : Except ScriptContextError Unit :=
  if MAX_SCRIPTSIG_SIZE < witness_to_scriptsig_len witness then
    .error .MaxScriptSigSizeExceeded
  else .ok ()

def Legacy.name_str : String := "Legacy/p2sh"

def Legacy.check_global_consensus_validity (ms : MSNode ExtT) :
    Except ScriptContextError Unit :=
  if MAX_SCRIPT_ELEMENT_SIZE < ms.ext.pk_cost then .error .MaxRedeemScriptSizeExceeded
  else
    match ms.node with
    | .PkK key =>
      if key.xonly then .error (.XOnlyKeysNotAllowed key.name Legacy.name_str)
      else .ok ()
    | .Multi _k pks =>
      if MAX_PUBKEYS_PER_MULTISIG < pks.length then .error .CheckMultiSigLimitExceeded
      else
        match pks.find? (fun pk => pk.xonly) with
        | some pk => .error (.XOnlyKeysNotAllowed pk.name Legacy.name_str)
        | none => .ok ()
    | .MultiA _ _ => .error .MultiANotAllowed
    | .Ext _ => .error (.ExtensionError "No Extensions in Legacy context")
    | _ => .ok ()

def Legacy.check_local_consensus_validity (ms : MSNode ExtT) :
    Except ScriptContextError Unit :=
  match ms.ext.ops.op_count with
  | none => .error .MaxOpCountExceeded
  | some op_count =>
    if MAX_OPS_PER_SCRIPT < op_count then .error .MaxOpCountExceeded
    else .ok ()

/-- `Legacy::max_satisfaction_size`: the scriptSig cost is the second
element of the `max_sat_size` tuple. -/
def Legacy.max_satisfaction_size (ms : MSNode ExtT) : Option Nat :=
  ms.ext.max_sat_size.map (fun x => x.2)

/-- `Legacy::check_local_policy_validity`; `ms.max_satisfaction_size()`
(a `Miniscript` method outside the extract) resolves to
`Legacy::max_satisfaction_size` with `None` mapped to an error. -/
def Legacy.check_local_policy_validity (ms : MSNode ExtT) :
    Except ScriptContextError Unit :=
  match Legacy.max_satisfaction_size ms with
  | none => .error .ImpossibleSatisfaction
  | some size =>
    if MAX_SCRIPTSIG_SIZE < size then .error .MaxScriptSigSizeExceeded
    else .ok ()

def Segwitv0.check_terminal_non_malleable (_frag : Terminal ExtT (MSNode ExtT)) :
    Except ScriptContextError Unit :=
  .ok ()

def Segwitv0.check_witness (witness : List (List Nat)) : Except ScriptContextError Unit :=
  if MAX_STANDARD_P2WSH_STACK_ITEMS < witness.length then
    .error (.MaxWitnessItemssExceeded witness.length MAX_STANDARD_P2WSH_STACK_ITEMS)
  else .ok ()

def Segwitv0.name_str : String := "Segwitv0"

/-- The `for pk in pks.iter()` key scan of `Segwitv0`'s `Multi` arm. -/
def Segwitv0.scanKeys (pks : List PubKey) : Except ScriptContextError Unit :=
  match pks with
  | [] => .ok ()
  | pk :: rest =>
    if pk.uncompressed then .error (.CompressedOnly pk.name)
    else if pk.xonly then .error (.XOnlyKeysNotAllowed pk.name Segwitv0.name_str)
    else Segwitv0.scanKeys rest

def Segwitv0.check_global_consensus_validity
    (es : ExtT → Except ScriptContextError Unit) (ms : MSNode ExtT) :
    Except ScriptContextError Unit :=
  if MAX_SCRIPT_SIZE < ms.ext.pk_cost then .error .MaxWitnessScriptSizeExceeded
  else
    match ms.node with
    | .PkK pk =>
      if pk.uncompressed then .error (.CompressedOnly pk.name)
      else if pk.xonly then .error (.XOnlyKeysNotAllowed pk.name Segwitv0.name_str)
      else .ok ()
    | .Multi _k pks =>
      if MAX_PUBKEYS_PER_MULTISIG < pks.length then .error .CheckMultiSigLimitExceeded
      else Segwitv0.scanKeys pks
    | .Ext e => es e
    | .MultiA _ _ => .error .MultiANotAllowed
    | _ => .ok ()

def Segwitv0.check_local_consensus_validity (ms : MSNode ExtT) :
    Except ScriptContextError Unit :=
  match ms.ext.ops.op_count with
  | none => .error .MaxOpCountExceeded
  | some op_count =>
    if MAX_OPS_PER_SCRIPT < op_count then .error .MaxOpCountExceeded
    else .ok ()

def Segwitv0.check_global_policy_validity (ms : MSNode ExtT) :
    Except ScriptContextError Unit :=
  if MAX_STANDARD_P2WSH_SCRIPT_SIZE < ms.ext.pk_cost then
    .error .MaxWitnessScriptSizeExceeded
  else .ok ()

/-- `Miniscript::max_satisfaction_witness_elements` is outside the extract;
modelled from the spec (§3: the bundle's witness-element count for a
successful satisfaction, plus one stack item for the witness script, as
noted in `Segwitv0::check_local_policy_validity`'s comment). -/
def MSNode.max_satisfaction_witness_elements (ms : MSNode ExtT) : Option Nat :=
  ms.ext.stack_elem_count_sat.map (fun n => n + 1)

def Segwitv0.check_local_policy_validity (ms : MSNode ExtT) :
    Except ScriptContextError Unit :=
  match ms.max_satisfaction_witness_elements with
  | none => .error .ImpossibleSatisfaction
  | some max_witness_items =>
    if MAX_STANDARD_P2WSH_STACK_ITEMS < max_witness_items then
      .error (.MaxWitnessItemssExceeded max_witness_items MAX_STANDARD_P2WSH_STACK_ITEMS)
    else .ok ()

def Segwitv0.max_satisfaction_size (ms : MSNode ExtT) : Option Nat :=
  ms.ext.max_sat_size.map (fun x => x.1)

def Tap.check_terminal_non_malleable (_frag : Terminal ExtT (MSNode ExtT)) :
    Except ScriptContextError Unit :=
  .ok ()

def Tap.check_witness (witness : List (List Nat)) : Except ScriptContextError Unit :=
  if MAX_STACK_SIZE < witness.length then
    .error (.MaxWitnessItemssExceeded witness.length MAX_STACK_SIZE)
  else .ok ()

def Tap.name_str : String := "TapscriptCtx"

def Tap.check_global_consensus_validity (ms : MSNode ExtT) :
    Except ScriptContextError Unit :=
  if MAX_BLOCK_WEIGHT < ms.ext.pk_cost then .error .MaxWitnessScriptSizeExceeded
  else
    match ms.node with
    | .PkK pk =>
      if pk.uncompressed then .error .UncompressedKeysNotAllowed
      else .ok ()
    | .Multi _ _ => .error .TaprootMultiDisabled
    | _ => .ok ()

def Tap.check_local_consensus_validity (ms : MSNode ExtT) :
    Except ScriptContextError Unit :=
  match ms.ext.exec_stack_elem_count_sat, ms.ext.stack_elem_count_sat with
  | some s, some h =>
    if MAX_STACK_SIZE < s + h then
      .error (.StackSizeLimitExceeded (s + h) MAX_STACK_SIZE)
    else .ok ()
  | _, _ => .ok ()

def Tap.max_satisfaction_size (ms : MSNode ExtT) : Option Nat :=
  ms.ext.max_sat_size.map (fun x => x.1)

def BareCtx.check_terminal_non_malleable (_frag : Terminal ExtT (MSNode ExtT)) :
    Except ScriptContextError Unit :=
  .ok ()

def BareCtx.name_str : String := "BareCtx"

def BareCtx.check_global_consensus_validity (ms : MSNode ExtT) :
    Except ScriptContextError Unit :=
  if MAX_SCRIPT_SIZE < ms.ext.pk_cost then .error .MaxWitnessScriptSizeExceeded
  else
    match ms.node with
    | .Ext _ => .error (.ExtensionError "No Extensions in Bare context")
    | .PkK key =>
      if key.xonly then .error (.XOnlyKeysNotAllowed key.name BareCtx.name_str)
      else .ok ()
    | .Multi _k pks =>
      if MAX_PUBKEYS_PER_MULTISIG < pks.length then .error .CheckMultiSigLimitExceeded
      else
        match pks.find? (fun pk => pk.xonly) with
        | some pk => .error (.XOnlyKeysNotAllowed pk.name BareCtx.name_str)
        | none => .ok ()
    | .MultiA _ _ => .error .MultiANotAllowed
    | _ => .ok ()

def BareCtx.check_local_consensus_validity (ms : MSNode ExtT) :
    Except ScriptContextError Unit :=
  match ms.ext.ops.op_count with
  | none => .error .MaxOpCountExceeded
  | some op_count =>
    if MAX_OPS_PER_SCRIPT < op_count then .error .MaxOpCountExceeded
    else .ok ()

def BareCtx.max_satisfaction_size (ms : MSNode ExtT) : Option Nat :=
  ms.ext.max_sat_size.map (fun x => x.2)

def NoChecks.check_terminal_non_malleable (_frag : Terminal ExtT (MSNode ExtT)) :
    Except ScriptContextError Unit :=
  .ok ()

/-! ## Trait dispatch

One function per `ScriptContext` trait method, dispatching on the closed
`Ctx` enumeration; contexts that do not override a method get the trait
default (`Ok(())`).  `NoChecks` overrides `check_global_validity`,
`check_local_validity` and the top-level checks with bodies identical to
the defaults, so a single definition covers both. -/

def Ctx.check_terminal_non_malleable (ctx : Ctx) (frag : Terminal ExtT (MSNode ExtT)) :
    Except ScriptContextError Unit :=
  match ctx with
  | .legacy => Legacy.check_terminal_non_malleable frag
  | .segwitv0 => Segwitv0.check_terminal_non_malleable frag
  | .tap => Tap.check_terminal_non_malleable frag
  | .bareCtx => BareCtx.check_terminal_non_malleable frag
  | .noChecks => NoChecks.check_terminal_non_malleable frag

def Ctx.check_witness (ctx : Ctx) (witness : List (List Nat)) :
    Except ScriptContextError Unit :=
  match ctx with
  | .legacy => Legacy.check_witness witness
  | .segwitv0 => Segwitv0.check_witness witness
  | .tap => Tap.check_witness witness
  | .bareCtx => .ok ()
  | .noChecks => .ok ()

def Ctx.check_global_consensus_validity (ctx : Ctx)
    (es : ExtT → Except ScriptContextError Unit) (ms : MSNode ExtT) :
    Except ScriptContextError Unit :=
  match ctx with
  | .legacy => Legacy.check_global_consensus_validity ms
  | .segwitv0 => Segwitv0.check_global_consensus_validity es ms
  | .tap => Tap.check_global_consensus_validity ms
  | .bareCtx => BareCtx.check_global_consensus_validity ms
  | .noChecks => .ok ()

def Ctx.check_global_policy_validity (ctx : Ctx) (ms : MSNode ExtT) :
    Except ScriptContextError Unit :=
  match ctx with
  | .legacy => .ok ()
  | .segwitv0 => Segwitv0.check_global_policy_validity ms
  | .tap => .ok ()
  | .bareCtx => .ok ()
  | .noChecks => .ok ()

def Ctx.check_local_consensus_validity (ctx : Ctx) (ms : MSNode ExtT) :
    Except ScriptContextError Unit :=
  match ctx with
  | .legacy => Legacy.check_local_consensus_validity ms
  | .segwitv0 => Segwitv0.check_local_consensus_validity ms
  | .tap => Tap.check_local_consensus_validity ms
  | .bareCtx => BareCtx.check_local_consensus_validity ms
  | .noChecks => .ok ()

def Ctx.check_local_policy_validity (ctx : Ctx) (ms : MSNode ExtT) :
    Except ScriptContextError Unit :=
  match ctx with
  | .legacy => Legacy.check_local_policy_validity ms
  | .segwitv0 => Segwitv0.check_local_policy_validity ms
  | .tap => .ok ()
  | .bareCtx => .ok ()
  | .noChecks => .ok ()

/-- Default composite: global consensus, then global policy. -/
def Ctx.check_global_validity (ctx : Ctx)
    (es : ExtT → Except ScriptContextError Unit) (ms : MSNode ExtT) :
    Except ScriptContextError Unit :=
  match Ctx.check_global_consensus_validity ctx es ms with
  | .error e => .error e
  | .ok _ => Ctx.check_global_policy_validity ctx ms

/-- Default composite: all four checks, in source order. -/
def Ctx.check_local_validity (ctx : Ctx)
    (es : ExtT → Except ScriptContextError Unit) (ms : MSNode ExtT) :
    Except ScriptContextError Unit :=
  match Ctx.check_global_consensus_validity ctx es ms with
  | .error e => .error e
  | .ok _ =>
    match Ctx.check_global_policy_validity ctx ms with
    | .error e => .error e
    | .ok _ =>
      match Ctx.check_local_consensus_validity ctx ms with
      | .error e => .error e
      | .ok _ => Ctx.check_local_policy_validity ctx ms

def Ctx.sig_type (ctx : Ctx) : SigType :=
  match ctx with
  | .legacy => .Ecdsa
  | .segwitv0 => .Ecdsa
  | .tap => .Schnorr
  | .bareCtx => .Ecdsa
  | .noChecks => .Ecdsa

def Legacy.pk_len (pk : PubKey) : Nat := if pk.uncompressed then 66 else 34

def Segwitv0.pk_len (_pk : PubKey) : Nat := 34

def Tap.pk_len (_pk : PubKey) : Nat := 33

def BareCtx.pk_len (pk : PubKey) : Nat := if pk.uncompressed then 65 else 33

/-! ## Decoder-level errors

`crate::Error` as observed by decode.rs and the top-level checks.  Errors
produced by the collaborator type checkers (`Type::type_check`,
`ExtData::type_check`) are collapsed into `typeError`; the `String` payload
of `NonTopLevel` (a debug rendering of the node) is dropped. -/

inductive PError where
  | unexpected
  | cmsTooManyKeys (n : Nat)
  | typeError
  | contextError (e : ScriptContextError)
  | nonTopLevel
  | nonStandardBareScript
deriving DecidableEq, Repr

/-! ## Top-level checks (context.rs) -/

/-- `ScriptContext::top_level_type_check` (and `NoChecks`' identical
override): the root's correctness base kind must be `B`. -/
def Ctx.top_level_type_check (_ctx : Ctx) (ms : MSNode ExtT) : Except PError Unit :=
  if ms.ty.corr.base ≠ Base.B then .error .nonTopLevel
  else .ok ()

/-- `BareCtx::other_top_level_checks`. -/
def BareCtx.other_top_level_checks (ms : MSNode ExtT) : Except PError Unit :=
  match ms.node with
  | .Check sub =>
    match sub.node with
    | .PkH _ => .ok ()
    | .PkK _ => .ok ()
    | _ => .error .nonStandardBareScript
  | .Multi _k subs =>
    if subs.length ≤ 3 then .ok () else .error .nonStandardBareScript
  | _ => .error .nonStandardBareScript

def Ctx.other_top_level_checks (ctx : Ctx) (ms : MSNode ExtT) : Except PError Unit :=
  match ctx with
  | .bareCtx => BareCtx.other_top_level_checks ms
  | _ => .ok ()

def Ctx.top_level_checks (ctx : Ctx) (ms : MSNode ExtT) : Except PError Unit :=
  match Ctx.top_level_type_check ctx ms with
  | .error e => .error e
  | .ok _ => Ctx.other_top_level_checks ctx ms

/-! ## Tokens (miniscript::lex collaborator)

Only the constructors consumed by decode.rs.  The token stream is the
script read in reverse; `peek`/`next`/`un_next` become `head?`, uncons and
cons on a `List`. -/

inductive Tk where
  | Num (n : Nat)
  | Pubkey (pk : PubKey)
  | Hash20 (h : Nat)
  | Hash32 (h : Nat)
  | Push (bytes : List Nat)
  | PickPush4 (n : Nat)
  | CheckSig
  | CheckMultiSig
  | CheckSequenceVerify
  | CheckLockTimeVerify
  | Verify
  | Equal
  | Dup
  | Size
  | Swap
  | Add
  | BoolAnd
  | BoolOr
  | Hash160
  | Ripemd160
  | Sha256
  | Hash256
  | FromAltStack
  | ToAltStack
  | EndIf
  | If
  | NotIf
  | Else
  | IfDup
  | ZeroNotEqual
  | Depth
  | Sub
  | Pick
  | Cat
deriving DecidableEq, Repr

/-- The pending-nonterminal alphabet of the shift-reduce parser. -/
inductive NonTerm where
  | Expression
  | MaybeSwap
  | MaybeAndV
  | Alt
  | Check
  | DupIf
  | Verify
  | NonZero
  | ZeroNotEqual
  | AndV
  | AndB
  | Tern
  | OrB
  | OrD
  | OrC
  | ThreshW (k n : Nat)
  | ThreshE (k n : Nat)
  | EndIf
  | EndIfNotIf
  | EndIfElse
deriving DecidableEq, Repr

/-- The collaborator functions decode.rs calls, bundled:
`Type::type_check` and `ExtData::type_check` (with `return_none` child
lookup, i.e. children carry their own annotations), `Ext::from_token_iter`
(returning the parsed extension leaf and the rest of the stream) and
`Ext::segwit_ctx_checks`. -/
structure Params (ExtT : Type) where
  tyF : Terminal ExtT (MSNode ExtT) → Option Ty
  exF : Terminal ExtT (MSNode ExtT) → Option ExtData
  extParse : List Tk → Option (ExtT × List Tk)
  extSegwit : ExtT → Except ScriptContextError Unit

/-- Shared body of the reduce helpers: type-check the candidate fragment
(`Type::type_check`, `ExtData::type_check`), build the node and run
`Ctx::check_global_validity` on it. -/
def mkChecked (ctx : Ctx) (P : Params ExtT) (t : Terminal ExtT (MSNode ExtT)) :
    Except PError (MSNode ExtT) :=
  match P.tyF t with
  | none => .error .typeError
  | some ty =>
    match P.exF t with
    | none => .error .typeError
    | some ext =>
      let ms := MSNode.mk t ty ext
      match Ctx.check_global_validity ctx P.extSegwit ms with
      | .error e => .error (.contextError e)
      | .ok _ => .ok ms

/-- `TerminalStack::reduce0`. -/
def reduce0 (ctx : Ctx) (P : Params ExtT) (t : Terminal ExtT (MSNode ExtT))
    (stack : List (MSNode ExtT)) : Except PError (List (MSNode ExtT)) :=
  match mkChecked ctx P t with
  | .error e => .error e
  | .ok ms => .ok (ms :: stack)

/-- `TerminalStack::reduce1`; `none` is the `pop().unwrap()` panic on an
empty stack. -/
def reduce1 (ctx : Ctx) (P : Params ExtT)
    (wrap : MSNode ExtT → Terminal ExtT (MSNode ExtT))
    (stack : List (MSNode ExtT)) : Option (Except PError (List (MSNode ExtT))) :=
  match stack with
  | [] => none
  | top :: rest =>
    some (match mkChecked ctx P (wrap top) with
      | .error e => .error e
      | .ok ms => .ok (ms :: rest))

/-- `TerminalStack::reduce2`: `left` is popped first (stack top), `right`
second. -/
def reduce2 (ctx : Ctx) (P : Params ExtT)
    (wrap : MSNode ExtT → MSNode ExtT → Terminal ExtT (MSNode ExtT))
    (stack : List (MSNode ExtT)) : Option (Except PError (List (MSNode ExtT))) :=
  match stack with
  | left :: right :: rest =>
    some (match mkChecked ctx P (wrap left right) with
      | .error e => .error e
      | .ok ms => .ok (ms :: rest))
  | _ => none

/-- The inline `NonTerm::Tern` reduction of `parse`: pops `a`, `b`, `c`,
builds `AndOr(a, c, b)`, runs the two type checks and pushes — with no
`Ctx::check_global_validity` call (unlike the `reduce*` helpers). -/
def reduceTern (P : Params ExtT) (stack : List (MSNode ExtT)) :
    Option (Except PError (List (MSNode ExtT))) :=
  match stack with
  | a :: b :: c :: rest =>
    some (match P.tyF (.AndOr a c b) with
      | none => .error .typeError
      | some ty =>
        match P.exF (.AndOr a c b) with
        | none => .error .typeError
        | some ext => .ok (MSNode.mk (.AndOr a c b) ty ext :: rest))
  | _ => none

/-- `is_and_v`: lookahead-only; false exactly on end-of-stream and the
terminator tokens `IF`, `NOTIF`, `ELSE`, `TOALTSTACK`. -/
def is_and_v (tokens : List Tk) : Bool :=
  match tokens with
  | [] => false
  | .If :: _ => false
  | .NotIf :: _ => false
  | .Else :: _ => false
  | .ToAltStack :: _ => false
  | _ => true

/-- The key-reading loop of the `CheckMultiSig` arm: reads exactly `n`
`Pubkey` tokens, in stream order. -/
def readKeys (n : Nat) (tokens : List Tk) : Except PError (List PubKey × List Tk) :=
  match n, tokens with
  | 0, r => .ok ([], r)
  | n + 1, .Pubkey pk :: r =>
    match readKeys n r with
    | .error e => .error e
    | .ok (ks, r') => .ok (pk :: ks, r')
  | _ + 1, _ => .error .unexpected

/-- The `NonTerm::Expression` dispatch of `parse`: one `match_token!`
step.  Returns the remaining stream, the nonterminals pushed (listed
top-first) and the zero-child fragment reduced, if any.  Mismatches inside
a multi-token pattern are the macro's `Unexpected` error; the two `x =>`
fallbacks that `un_next` the token leave the stream unchanged. -/
def stepExpression (toks : List Tk) :
    Except PError (List Tk × List NonTerm × Option (Terminal ExtT (MSNode ExtT))) :=
  match toks with
  | .Pubkey pk :: r => .ok (r, [], some (.PkK pk))
  | .CheckSig :: r => .ok (r, [.Expression, .Check], none)
  | .Verify :: r =>
    match r with
    | .Equal :: r2 =>
      match r2 with
      | .Hash20 h :: r3 =>
        match r3 with
        | .Hash160 :: r4 =>
          match r4 with
          | .Dup :: r5 => .ok (r5, [], some (.PkH h))
          | .Verify :: .Equal :: .Num 32 :: .Size :: r5 =>
            .ok (r5, [.Verify], some (.Hash160 h))
          | _ => .error .unexpected
        | .Ripemd160 :: .Verify :: .Equal :: .Num 32 :: .Size :: r4 =>
          .ok (r4, [.Verify], some (.Ripemd160 h))
        | _ => .error .unexpected
      | .Hash32 h :: r3 =>
        match r3 with
        | .Sha256 :: .Verify :: .Equal :: .Num 32 :: .Size :: r4 =>
          .ok (r4, [.Verify], some (.Sha256 h))
        | .Hash256 :: .Verify :: .Equal :: .Num 32 :: .Size :: r4 =>
          .ok (r4, [.Verify], some (.Hash256 h))
        | _ => .error .unexpected
      | .PickPush4 ver :: .Sub :: r3 =>
        match r3 with
        | .Num 12 :: .Depth :: r4 => .ok (r4, [.Verify], some (.Version ver))
        | _ => .error .unexpected
      | .Pick :: .Sub :: r3 =>
        match r3 with
        | .Num 4 :: .Depth :: .Hash256 :: .Cat :: .Swap :: .Push bytes ::
            .Cat :: .Cat :: .Cat :: .Cat :: .Cat :: .Cat :: r4 =>
          .ok (r4, [.Verify], some (.OutputsPref bytes))
        | _ => .error .unexpected
      | .Num k :: r3 => .ok (r3, [.ThreshW k 0, .Verify], none)
      | _ => .error .unexpected
    | _ :: _ => .ok (r, [.Expression, .Verify], none)
    | [] => .error .unexpected
  | .ZeroNotEqual :: r => .ok (r, [.Expression, .ZeroNotEqual], none)
  | .CheckSequenceVerify :: .Num n :: r => .ok (r, [], some (.Older n))
  | .CheckLockTimeVerify :: .Num n :: r => .ok (r, [], some (.After n))
  | .Equal :: r =>
    match r with
    | .Hash32 h :: r2 =>
      match r2 with
      | .Sha256 :: .Verify :: .Equal :: .Num 32 :: .Size :: r3 =>
        .ok (r3, [], some (.Sha256 h))
      | .Hash256 :: .Verify :: .Equal :: .Num 32 :: .Size :: r3 =>
        .ok (r3, [], some (.Hash256 h))
      | _ => .error .unexpected
    | .Hash20 h :: r2 =>
      match r2 with
      | .Ripemd160 :: .Verify :: .Equal :: .Num 32 :: .Size :: r3 =>
        .ok (r3, [], some (.Ripemd160 h))
      | .Hash160 :: .Verify :: .Equal :: .Num 32 :: .Size :: r3 =>
        .ok (r3, [], some (.Hash160 h))
      | _ => .error .unexpected
    | .PickPush4 ver :: .Sub :: r2 =>
      match r2 with
      | .Num 12 :: .Depth :: r3 => .ok (r3, [], some (.Version ver))
      | _ => .error .unexpected
    | .Pick :: .Sub :: r2 =>
      match r2 with
      | .Num 4 :: .Depth :: .Hash256 :: .Cat :: .Swap :: .Push bytes ::
          .Cat :: .Cat :: .Cat :: .Cat :: .Cat :: .Cat :: r3 =>
        .ok (r3, [], some (.OutputsPref bytes))
      | _ => .error .unexpected
    | .Num k :: r2 => .ok (r2, [.ThreshW k 0], none)
    | _ => .error .unexpected
  | .FromAltStack :: r => .ok (r, [.Expression, .MaybeSwap, .MaybeAndV, .Alt], none)
  | .Num 0 :: r => .ok (r, [], some .False)
  | .Num 1 :: r => .ok (r, [], some .True)
  | .EndIf :: r => .ok (r, [.Expression, .MaybeSwap, .MaybeAndV, .EndIf], none)
  | .BoolAnd :: r => .ok (r, [.Expression, .MaybeSwap, .Expression, .AndB], none)
  | .BoolOr :: r => .ok (r, [.Expression, .MaybeSwap, .Expression, .OrB], none)
  | .CheckMultiSig :: .Num n :: r =>
    if 20 < n then .error (.cmsTooManyKeys n)
    else
      match readKeys n r with
      | .error e => .error e
      | .ok (keys, r2) =>
        match r2 with
        | .Num k :: r3 => .ok (r3, [], some (.Multi k keys.reverse))
        | _ => .error .unexpected
  | _ => .error .unexpected

/-- Parser state: the token stream, the pending-nonterminal stack and the
completed-term stack (both lists head-first). -/
structure PState (ExtT : Type) where
  tokens : List Tk
  nonTerm : List NonTerm
  term : List (MSNode ExtT)

/-- Outcome of one loop iteration of `parse`:
continue, return the finished tree, return a typed error, or hit a
`pop().unwrap()` / `assert_eq!` panic (`crash`). -/
inductive StepRes (ExtT : Type) where
  | cont (st : PState ExtT)
  | done (ms : MSNode ExtT)
  | fail (e : PError)
  | crash

/-- One iteration of the `loop` in `parse`, including the extension
pre-parse that runs whenever the top expectation is `Expression`, the
loop-exit path (empty expectation stack, with the final
`assert_eq!(term.0.len(), 1)` and `term.pop().unwrap()`), and the dispatch
on the popped nonterminal. -/
def parseStep (ctx : Ctx) (P : Params ExtT) (st : PState ExtT) : StepRes ExtT :=
  match st.nonTerm with
  | [] =>
    match st.term with
    | [ms] => .done ms
    | _ => .crash
  | topNT :: restNT =>
    match topNT, P.extParse st.tokens with
    | .Expression, some (e, toks') =>
      match reduce0 ctx P (.Ext e) st.term with
      | .error err => .fail err
      | .ok stack' => .cont ⟨toks', restNT, stack'⟩
    | _, _ =>
      match topNT with
      | .Expression =>
        match stepExpression st.tokens with
        | .error e => .fail e
        | .ok (toks', pushes, red) =>
          match red with
          | none => .cont ⟨toks', pushes ++ restNT, st.term⟩
          | some t =>
            match reduce0 ctx P t st.term with
            | .error e => .fail e
            | .ok stack' => .cont ⟨toks', pushes ++ restNT, stack'⟩
      | .MaybeAndV =>
        if is_and_v st.tokens then
          .cont ⟨st.tokens, .Expression :: .AndV :: restNT, st.term⟩
        else .cont ⟨st.tokens, restNT, st.term⟩
      | .MaybeSwap =>
        match st.tokens with
        | .Swap :: toks' =>
          match reduce1 ctx P .Swap st.term with
          | none => .crash
          | some (.error e) => .fail e
          | some (.ok stack') => .cont ⟨toks', .MaybeSwap :: restNT, stack'⟩
        | _ => .cont ⟨st.tokens, restNT, st.term⟩
      | .Alt =>
        match st.tokens with
        | .ToAltStack :: toks' =>
          match reduce1 ctx P .Alt st.term with
          | none => .crash
          | some (.error e) => .fail e
          | some (.ok stack') => .cont ⟨toks', restNT, stack'⟩
        | _ => .fail .unexpected
      | .Check =>
        match reduce1 ctx P .Check st.term with
        | none => .crash
        | some (.error e) => .fail e
        | some (.ok stack') => .cont ⟨st.tokens, restNT, stack'⟩
      | .DupIf =>
        match reduce1 ctx P .DupIf st.term with
        | none => .crash
        | some (.error e) => .fail e
        | some (.ok stack') => .cont ⟨st.tokens, restNT, stack'⟩
      | .Verify =>
        match reduce1 ctx P .Verify st.term with
        | none => .crash
        | some (.error e) => .fail e
        | some (.ok stack') => .cont ⟨st.tokens, restNT, stack'⟩
      | .NonZero =>
        match reduce1 ctx P .NonZero st.term with
        | none => .crash
        | some (.error e) => .fail e
        | some (.ok stack') => .cont ⟨st.tokens, restNT, stack'⟩
      | .ZeroNotEqual =>
        match reduce1 ctx P .ZeroNotEqual st.term with
        | none => .crash
        | some (.error e) => .fail e
        | some (.ok stack') => .cont ⟨st.tokens, restNT, stack'⟩
      | .AndV =>
        if is_and_v st.tokens then
          .cont ⟨st.tokens, .MaybeAndV :: .AndV :: restNT, st.term⟩
        else
          match reduce2 ctx P .AndV st.term with
          | none => .crash
          | some (.error e) => .fail e
          | some (.ok stack') => .cont ⟨st.tokens, restNT, stack'⟩
      | .AndB =>
        match reduce2 ctx P .AndB st.term with
        | none => .crash
        | some (.error e) => .fail e
        | some (.ok stack') => .cont ⟨st.tokens, restNT, stack'⟩
      | .OrB =>
        match reduce2 ctx P .OrB st.term with
        | none => .crash
        | some (.error e) => .fail e
        | some (.ok stack') => .cont ⟨st.tokens, restNT, stack'⟩
      | .OrC =>
        match reduce2 ctx P .OrC st.term with
        | none => .crash
        | some (.error e) => .fail e
        | some (.ok stack') => .cont ⟨st.tokens, restNT, stack'⟩
      | .OrD =>
        match reduce2 ctx P .OrD st.term with
        | none => .crash
        | some (.error e) => .fail e
        | some (.ok stack') => .cont ⟨st.tokens, restNT, stack'⟩
      | .Tern =>
        match reduceTern P st.term with
        | none => .crash
        | some (.error e) => .fail e
        | some (.ok stack') => .cont ⟨st.tokens, restNT, stack'⟩
      | .ThreshW k n =>
        match st.tokens with
        | .Add :: toks' =>
          .cont ⟨toks', .Expression :: .MaybeSwap :: .ThreshW k (n + 1) :: restNT, st.term⟩
        | _ :: _ =>
          .cont ⟨st.tokens, .Expression :: .MaybeSwap :: .ThreshE k (n + 1) :: restNT, st.term⟩
        | [] => .fail .unexpected
      | .ThreshE k n =>
        if n ≤ st.term.length then
          match reduce0 ctx P (.Thresh k (st.term.take n)) (st.term.drop n) with
          | .error e => .fail e
          | .ok stack' => .cont ⟨st.tokens, restNT, stack'⟩
        else .crash
      | .EndIf =>
        match st.tokens with
        | .Else :: toks' =>
          .cont ⟨toks', .Expression :: .MaybeSwap :: .MaybeAndV :: .EndIfElse :: restNT, st.term⟩
        | .If :: toks' =>
          match toks' with
          | .Dup :: toks2 => .cont ⟨toks2, .DupIf :: restNT, st.term⟩
          | .ZeroNotEqual :: .Size :: toks2 => .cont ⟨toks2, .NonZero :: restNT, st.term⟩
          | _ => .fail .unexpected
        | .NotIf :: toks' => .cont ⟨toks', .EndIfNotIf :: restNT, st.term⟩
        | _ => .fail .unexpected
      | .EndIfNotIf =>
        match st.tokens with
        | .IfDup :: toks' => .cont ⟨toks', .Expression :: .OrD :: restNT, st.term⟩
        | _ :: _ => .cont ⟨st.tokens, .Expression :: .OrC :: restNT, st.term⟩
        | [] => .fail .unexpected
      | .EndIfElse =>
        match st.tokens with
        | .If :: toks' =>
          match reduce2 ctx P .OrI st.term with
          | none => .crash
          | some (.error e) => .fail e
          | some (.ok stack') => .cont ⟨toks', restNT, stack'⟩
        | .NotIf :: toks' => .cont ⟨toks', .Expression :: .Tern :: restNT, st.term⟩
        | _ => .fail .unexpected

/-- Result of running the parser: the source either returns
`Ok(miniscript)`, returns a typed `Err`, or panics (`crash`); `noFuel`
is the artefact of the explicit fuel. -/
inductive ParseOut (ExtT : Type) where
  | ok (ms : MSNode ExtT)
  | err (e : PError)
  | crash
  | noFuel

def parseLoop (ctx : Ctx) (P : Params ExtT) : Nat → PState ExtT → ParseOut ExtT
  | 0, _ => .noFuel
  | fuel + 1, st =>
    match parseStep ctx P st with
    | .cont st' => parseLoop ctx P fuel st'
    | .done ms => .ok ms
    | .fail e => .err e
    | .crash => .crash

/-- `parse` from decode.rs: initial expectations `MaybeAndV`, `MaybeSwap`,
`Expression` (innermost on top), then the loop.  The fuel
`10 * |tokens| + 3` is proven sufficient below (`parse_no_noFuel`). -/
def parse (ctx : Ctx) (P : Params ExtT) (tokens : List Tk) : ParseOut ExtT :=
  parseLoop ctx P (10 * tokens.length + 3)
    ⟨tokens, [.Expression, .MaybeSwap, .MaybeAndV], []⟩

/-! ## Concrete objects used by witnesses and counterexamples -/

def ty0 : Ty := ⟨⟨.B⟩⟩

def tyV : Ty := ⟨⟨.V⟩⟩

def ext0 : ExtData := ⟨0, ⟨some 0⟩, some (0, 0), some 0, some 0⟩

def esU : Unit → Except ScriptContextError Unit := fun _ => .ok ()

def compKey : PubKey := ⟨"comp", false, false⟩

def uncKey : PubKey := ⟨"unc", true, false⟩

def xoKey : PubKey := ⟨"xo", false, true⟩

/-- Trivial collaborator bundle: type checks always succeed with fixed
annotations, no extension ever parses. -/
def trivialParams : Params Unit :=
  { tyF := fun _ => some ty0
    exF := fun _ => some ext0
    extParse := fun _ => none
    extSegwit := fun _ => .ok () }

/-- Helper: the `Segwitv0` multisig key scan succeeds on compressed,
non-x-only keys. -/
theorem Segwitv0.scanKeys_ok (keys : List PubKey)
    (h : ∀ pk ∈ keys, pk.uncompressed = false ∧ pk.xonly = false) :
    Segwitv0.scanKeys keys = .ok () := by
  induction keys with
  | nil => rfl
  | cons pk rest ih =>
    have hpk := h pk (by simp)
    simp [Segwitv0.scanKeys, hpk.1, hpk.2]
    exact ih fun q hq => h q (by simp [hq])

/-- Claim C8: `check_terminal_non_malleable` rejects every `PkH` fragment
with `MalleablePkH` under the Legacy context, and accepts `PkH` under
Segwitv0, Tap, BareCtx and NoChecks. -/
theorem C8_pkh_malleable_legacy_only {ExtT : Type} (h : Nat) :
    @Ctx.check_terminal_non_malleable ExtT .legacy (.PkH h) =
      .error .MalleablePkH ∧
    @Ctx.check_terminal_non_malleable ExtT .segwitv0 (.PkH h) = .ok () ∧
    @Ctx.check_terminal_non_malleable ExtT .tap (.PkH h) = .ok () ∧
    @Ctx.check_terminal_non_malleable ExtT .bareCtx (.PkH h) = .ok () ∧
    @Ctx.check_terminal_non_malleable ExtT .noChecks (.PkH h) = .ok () :=
  ⟨rfl, rfl, rfl, rfl, rfl⟩

/-- Claim C6: for every context, `check_global_validity` succeeds iff both
global checks succeed, and `check_local_validity` succeeds iff all four
checks succeed. -/
theorem C6_composite_validity {ExtT : Type} (ctx : Ctx)
    (es : ExtT → Except ScriptContextError Unit) (ms : MSNode ExtT) :
    (Ctx.check_global_validity ctx es ms = .ok () ↔
      (Ctx.check_global_consensus_validity ctx es ms = .ok () ∧
       Ctx.check_global_policy_validity ctx ms = .ok ())) ∧
    (Ctx.check_local_validity ctx es ms = .ok () ↔
      (Ctx.check_global_consensus_validity ctx es ms = .ok () ∧
       Ctx.check_global_policy_validity ctx ms = .ok () ∧
       Ctx.check_local_consensus_validity ctx ms = .ok () ∧
       Ctx.check_local_policy_validity ctx ms = .ok ())) := by
  constructor
  · unfold Ctx.check_global_validity
    cases h1 : Ctx.check_global_consensus_validity ctx es ms with
    | error e => simp [h1]
    | ok u => cases u; simp [h1]
  · unfold Ctx.check_local_validity
    cases h1 : Ctx.check_global_consensus_validity ctx es ms with
    | error e => simp [h1]
    | ok u =>
      cases u
      cases h2 : Ctx.check_global_policy_validity ctx ms with
      | error e => simp [h1, h2]
      | ok u =>
        cases u
        cases h3 : Ctx.check_local_consensus_validity ctx ms with
        | error e => simp [h1, h2, h3]
        | ok u => cases u; simp [h1, h2, h3]

/-- The root shapes legal at the top level under the bare context, as the
spec words them: a `Check` wrapper around `PkK` or `PkH`, or a `Multi`
with at most three keys. -/
def bareTopShape (ms : MSNode ExtT) : Prop :=
  match ms.node with
  | .Check sub =>
    match sub.node with
    | .PkH _ => True
    | .PkK _ => True
    | _ => False
  | .Multi _ subs => subs.length ≤ 3
  | _ => False

/-- Claim C7: `top_level_checks` succeeds only on roots of base kind `B`
(failing with `NonTopLevel` otherwise); under `BareCtx` it additionally
requires the root to be a `Check` around `PkK`/`PkH` or a `Multi` with at
most three keys (failing with `NonStandardBareScript` otherwise), while
every other context imposes no extra root-shape restriction. -/
theorem C7_top_level_checks {ExtT : Type} (ctx : Ctx) (ms : MSNode ExtT) :
    (Ctx.top_level_checks ctx ms = .ok () → ms.ty.corr.base = .B) ∧
    (ms.ty.corr.base ≠ .B → Ctx.top_level_checks ctx ms = .error .nonTopLevel) ∧
    (ms.ty.corr.base = .B →
      (Ctx.top_level_checks .bareCtx ms = .ok () ↔ bareTopShape ms)) ∧
    (ms.ty.corr.base = .B → ctx ≠ .bareCtx → Ctx.top_level_checks ctx ms = .ok ()) ∧
    (ms.ty.corr.base = .B → ¬ bareTopShape ms →
      Ctx.top_level_checks .bareCtx ms = .error .nonStandardBareScript) := by
  by_cases hB : ms.ty.corr.base = .B
  · refine ⟨fun _ => hB, fun hc => absurd hB hc, ?_, ?_, ?_⟩
    · unfold Ctx.top_level_checks Ctx.top_level_type_check
      simp only [hB, ne_eq, not_true_eq_false, if_false, ite_false]
      unfold Ctx.other_top_level_checks BareCtx.other_top_level_checks bareTopShape
      cases hn : ms.node <;> simp [hn]
      next sub => cases hs : sub.node <;> simp [hs]
    · intro _ hctx
      unfold Ctx.top_level_checks Ctx.top_level_type_check
      simp only [hB, ne_eq, not_true_eq_false, if_false, ite_false]
      cases ctx <;> simp [Ctx.other_top_level_checks] at hctx ⊢
    · intro _ hshape
      unfold Ctx.top_level_checks Ctx.top_level_type_check
      simp only [hB, ne_eq, not_true_eq_false, if_false, ite_false]
      unfold Ctx.other_top_level_checks BareCtx.other_top_level_checks
      unfold bareTopShape at hshape
      cases hn : ms.node <;> simp [hn] at hshape ⊢
      next sub => cases hs : sub.node <;> simp [hs] at hshape ⊢
      next k subs => simp [hshape]
  · have herr : Ctx.top_level_checks ctx ms = .error .nonTopLevel := by
      unfold Ctx.top_level_checks Ctx.top_level_type_check
      simp [hB]
    refine ⟨fun hok => ?_, fun _ => herr, fun hc => absurd hc hB,
      fun hc => absurd hc hB, fun hc => absurd hc hB⟩
    rw [herr] at hok
    exact absurd hok (by simp)

/-- Witness for C7 at a concrete bare-standard root. -/
def bareRoot : MSNode Unit := .mk (.Check (.mk (.PkK compKey) ty0 ext0)) ty0 ext0

theorem C7_top_level_checks_witness :
    Ctx.top_level_checks .legacy bareRoot = .ok () ∧
    Ctx.top_level_checks .bareCtx bareRoot = .ok () := by
  constructor
  · exact (C7_top_level_checks .legacy bareRoot).2.2.2.1 rfl (by simp)
  · exact ((C7_top_level_checks .bareCtx bareRoot).2.2.1 rfl).mpr trivial

/-- Claim C3 (amended): for a `PkK` fragment the claim holds as stated:
an uncompressed key is rejected by Segwitv0 (`CompressedOnly`) and Tap
(`UncompressedKeysNotAllowed`) and accepted by Legacy and BareCtx; an
x-only key is rejected by Legacy, Segwitv0 and BareCtx
(`XOnlyKeysNotAllowed`) and accepted only by Tap.  For a `Multi` fragment
the per-key rules hold under Legacy, Segwitv0 and BareCtx, but under Tap
every `Multi` is rejected with `TaprootMultiDisabled` irrespective of its
keys, so an x-only `Multi` is not accepted under Tap and an
uncompressed-key `Multi` is not reported as `UncompressedKeysNotAllowed`. -/
theorem C3_amended {ExtT : Type} (es : ExtT → Except ScriptContextError Unit)
    (pk : PubKey) (ty : Ty) (ext : ExtData)
    (hcost : ext.pk_cost ≤ MAX_SCRIPT_ELEMENT_SIZE) :
    (pk.uncompressed = true → pk.xonly = false →
      Ctx.check_global_consensus_validity .segwitv0 es (.mk (.PkK pk) ty ext) =
        .error (.CompressedOnly pk.name) ∧
      Ctx.check_global_consensus_validity .tap es (.mk (.PkK pk) ty ext) =
        .error .UncompressedKeysNotAllowed ∧
      Ctx.check_global_consensus_validity .legacy es (.mk (.PkK pk) ty ext) = .ok () ∧
      Ctx.check_global_consensus_validity .bareCtx es (.mk (.PkK pk) ty ext) = .ok ()) ∧
    (pk.xonly = true → pk.uncompressed = false →
      Ctx.check_global_consensus_validity .legacy es (.mk (.PkK pk) ty ext) =
        .error (.XOnlyKeysNotAllowed pk.name Legacy.name_str) ∧
      Ctx.check_global_consensus_validity .segwitv0 es (.mk (.PkK pk) ty ext) =
        .error (.XOnlyKeysNotAllowed pk.name Segwitv0.name_str) ∧
      Ctx.check_global_consensus_validity .bareCtx es (.mk (.PkK pk) ty ext) =
        .error (.XOnlyKeysNotAllowed pk.name BareCtx.name_str) ∧
      Ctx.check_global_consensus_validity .tap es (.mk (.PkK pk) ty ext) = .ok ()) ∧
    (pk.uncompressed = true → pk.xonly = false →
      Ctx.check_global_consensus_validity .segwitv0 es (.mk (.Multi 1 [pk]) ty ext) =
        .error (.CompressedOnly pk.name) ∧
      Ctx.check_global_consensus_validity .legacy es (.mk (.Multi 1 [pk]) ty ext) = .ok () ∧
      Ctx.check_global_consensus_validity .bareCtx es (.mk (.Multi 1 [pk]) ty ext) = .ok ()) ∧
    (pk.xonly = true → pk.uncompressed = false →
      Ctx.check_global_consensus_validity .legacy es (.mk (.Multi 1 [pk]) ty ext) =
        .error (.XOnlyKeysNotAllowed pk.name Legacy.name_str) ∧
      Ctx.check_global_consensus_validity .segwitv0 es (.mk (.Multi 1 [pk]) ty ext) =
        .error (.XOnlyKeysNotAllowed pk.name Segwitv0.name_str) ∧
      Ctx.check_global_consensus_validity .bareCtx es (.mk (.Multi 1 [pk]) ty ext) =
        .error (.XOnlyKeysNotAllowed pk.name BareCtx.name_str)) ∧
    (∀ (k : Nat) (keys : List PubKey),
      Ctx.check_global_consensus_validity .tap es (.mk (.Multi k keys) ty ext) =
        .error .TaprootMultiDisabled) := by
  simp only [MAX_SCRIPT_ELEMENT_SIZE] at hcost
  refine ⟨?_, ?_, ?_, ?_, ?_⟩
  · intro hu hx
    refine ⟨?_, ?_, ?_, ?_⟩
    · simp only [Ctx.check_global_consensus_validity,
        Segwitv0.check_global_consensus_validity, MSNode.ext, MSNode.node, MAX_SCRIPT_SIZE]
      rw [if_neg (by omega)]
      simp [hu]
    · simp only [Ctx.check_global_consensus_validity,
        Tap.check_global_consensus_validity, MSNode.ext, MSNode.node, MAX_BLOCK_WEIGHT]
      rw [if_neg (by omega)]
      simp [hu]
    · simp only [Ctx.check_global_consensus_validity,
        Legacy.check_global_consensus_validity, MSNode.ext, MSNode.node,
        MAX_SCRIPT_ELEMENT_SIZE]
      rw [if_neg (by omega)]
      simp [hx]
    · simp only [Ctx.check_global_consensus_validity,
        BareCtx.check_global_consensus_validity, MSNode.ext, MSNode.node, MAX_SCRIPT_SIZE]
      rw [if_neg (by omega)]
      simp [hx]
  · intro hx hu
    refine ⟨?_, ?_, ?_, ?_⟩
    · simp only [Ctx.check_global_consensus_validity,
        Legacy.check_global_consensus_validity, MSNode.ext, MSNode.node,
        MAX_SCRIPT_ELEMENT_SIZE]
      rw [if_neg (by omega)]
      simp [hx]
    · simp only [Ctx.check_global_consensus_validity,
        Segwitv0.check_global_consensus_validity, MSNode.ext, MSNode.node, MAX_SCRIPT_SIZE]
      rw [if_neg (by omega)]
      simp [hu, hx]
    · simp only [Ctx.check_global_consensus_validity,
        BareCtx.check_global_consensus_validity, MSNode.ext, MSNode.node, MAX_SCRIPT_SIZE]
      rw [if_neg (by omega)]
      simp [hx]
    · simp only [Ctx.check_global_consensus_validity,
        Tap.check_global_consensus_validity, MSNode.ext, MSNode.node, MAX_BLOCK_WEIGHT]
      rw [if_neg (by omega)]
      simp [hu]
  · intro hu hx
    refine ⟨?_, ?_, ?_⟩
    · simp only [Ctx.check_global_consensus_validity,
        Segwitv0.check_global_consensus_validity, MSNode.ext, MSNode.node, MAX_SCRIPT_SIZE,
        MAX_PUBKEYS_PER_MULTISIG]
      rw [if_neg (by omega)]
      simp [Segwitv0.scanKeys, hu]
    · simp only [Ctx.check_global_consensus_validity,
        Legacy.check_global_consensus_validity, MSNode.ext, MSNode.node,
        MAX_SCRIPT_ELEMENT_SIZE, MAX_PUBKEYS_PER_MULTISIG]
      rw [if_neg (by omega)]
      simp [List.find?, hx]
    · simp only [Ctx.check_global_consensus_validity,
        BareCtx.check_global_consensus_validity, MSNode.ext, MSNode.node, MAX_SCRIPT_SIZE,
        MAX_PUBKEYS_PER_MULTISIG]
      rw [if_neg (by omega)]
      simp [List.find?, hx]
  · intro hx hu
    refine ⟨?_, ?_, ?_⟩
    · simp only [Ctx.check_global_consensus_validity,
        Legacy.check_global_consensus_validity, MSNode.ext, MSNode.node,
        MAX_SCRIPT_ELEMENT_SIZE, MAX_PUBKEYS_PER_MULTISIG]
      rw [if_neg (by omega)]
      simp [List.find?, hx]
    · simp only [Ctx.check_global_consensus_validity,
        Segwitv0.check_global_consensus_validity, MSNode.ext, MSNode.node, MAX_SCRIPT_SIZE,
        MAX_PUBKEYS_PER_MULTISIG]
      rw [if_neg (by omega)]
      simp [Segwitv0.scanKeys, hu, hx]
    · simp only [Ctx.check_global_consensus_validity,
        BareCtx.check_global_consensus_validity, MSNode.ext, MSNode.node, MAX_SCRIPT_SIZE,
        MAX_PUBKEYS_PER_MULTISIG]
      rw [if_neg (by omega)]
      simp [List.find?, hx]
  · intro k keys
    simp only [Ctx.check_global_consensus_validity,
      Tap.check_global_consensus_validity, MSNode.ext, MSNode.node, MAX_BLOCK_WEIGHT]
    rw [if_neg (by omega)]

/-- Counterexample for C3: a `Multi` fragment whose key is x-only is not
accepted under Tap (contrary to "accepted only under Tap"): it is rejected
with `TaprootMultiDisabled`. -/
theorem C3_counterexample :
    Ctx.check_global_consensus_validity .tap esU (.mk (.Multi 1 [xoKey]) ty0 ext0) =
      .error .TaprootMultiDisabled ∧
    (Except.error .TaprootMultiDisabled : Except ScriptContextError Unit) ≠ .ok () :=
  ⟨rfl, fun h => Except.noConfusion h⟩

/-- Witness for C3 at a concrete uncompressed key and a concrete x-only
key. -/
theorem C3_amended_witness :
    Ctx.check_global_consensus_validity .segwitv0 esU (.mk (.PkK uncKey) ty0 ext0) =
      .error (.CompressedOnly uncKey.name) ∧
    Ctx.check_global_consensus_validity .tap esU (.mk (.PkK xoKey) ty0 ext0) = .ok () := by
  constructor
  · exact ((C3_amended esU uncKey ty0 ext0 (by simp [ext0])).1 rfl rfl).1
  · exact ((C3_amended esU xoKey ty0 ext0 (by simp [ext0])).2.1 rfl rfl).2.2.2

/-- Claim C4: under Tap every `Multi` is rejected (`TaprootMultiDisabled`);
Legacy, Segwitv0 and BareCtx accept `Multi` up to 20 suitable keys and
reject more than 20 keys with `CheckMultiSigLimitExceeded`; `MultiA` is
rejected with `MultiANotAllowed` under Legacy, Segwitv0 and BareCtx. -/
theorem C4_multi_per_context {ExtT : Type} (es : ExtT → Except ScriptContextError Unit)
    (ty : Ty) (ext : ExtData) (k : Nat) (keys : List PubKey) :
    (Ctx.check_global_consensus_validity .tap es (.mk (.Multi k keys) ty ext) ≠ .ok ()) ∧
    (ext.pk_cost ≤ MAX_BLOCK_WEIGHT →
      Ctx.check_global_consensus_validity .tap es (.mk (.Multi k keys) ty ext) =
        .error .TaprootMultiDisabled) ∧
    (ext.pk_cost ≤ MAX_SCRIPT_ELEMENT_SIZE → keys.length ≤ 20 →
      (∀ pk ∈ keys, pk.uncompressed = false ∧ pk.xonly = false) →
      Ctx.check_global_consensus_validity .legacy es (.mk (.Multi k keys) ty ext) = .ok () ∧
      Ctx.check_global_consensus_validity .segwitv0 es (.mk (.Multi k keys) ty ext) = .ok () ∧
      Ctx.check_global_consensus_validity .bareCtx es (.mk (.Multi k keys) ty ext) = .ok ()) ∧
    (ext.pk_cost ≤ MAX_SCRIPT_ELEMENT_SIZE → 20 < keys.length →
      Ctx.check_global_consensus_validity .legacy es (.mk (.Multi k keys) ty ext) =
        .error .CheckMultiSigLimitExceeded ∧
      Ctx.check_global_consensus_validity .segwitv0 es (.mk (.Multi k keys) ty ext) =
        .error .CheckMultiSigLimitExceeded ∧
      Ctx.check_global_consensus_validity .bareCtx es (.mk (.Multi k keys) ty ext) =
        .error .CheckMultiSigLimitExceeded) ∧
    (ext.pk_cost ≤ MAX_SCRIPT_ELEMENT_SIZE →
      Ctx.check_global_consensus_validity .legacy es (.mk (.MultiA k keys) ty ext) =
        .error .MultiANotAllowed ∧
      Ctx.check_global_consensus_validity .segwitv0 es (.mk (.MultiA k keys) ty ext) =
        .error .MultiANotAllowed ∧
      Ctx.check_global_consensus_validity .bareCtx es (.mk (.MultiA k keys) ty ext) =
        .error .MultiANotAllowed) := by
  refine ⟨?_, ?_, ?_, ?_, ?_⟩
  · simp only [Ctx.check_global_consensus_validity,
      Tap.check_global_consensus_validity, MSNode.ext, MSNode.node]
    split <;> simp
  · intro hcost
    simp only [MAX_BLOCK_WEIGHT] at hcost
    simp only [Ctx.check_global_consensus_validity,
      Tap.check_global_consensus_validity, MSNode.ext, MSNode.node, MAX_BLOCK_WEIGHT]
    rw [if_neg (by omega)]
  · intro hcost hlen hkeys
    simp only [MAX_SCRIPT_ELEMENT_SIZE] at hcost
    refine ⟨?_, ?_, ?_⟩
    · simp only [Ctx.check_global_consensus_validity,
        Legacy.check_global_consensus_validity, MSNode.ext, MSNode.node,
        MAX_SCRIPT_ELEMENT_SIZE, MAX_PUBKEYS_PER_MULTISIG]
      rw [if_neg (by omega), if_neg (by omega)]
      rw [List.find?_eq_none.mpr (fun pk hpk => by simp [(hkeys pk hpk).2])]
    · simp only [Ctx.check_global_consensus_validity,
        Segwitv0.check_global_consensus_validity, MSNode.ext, MSNode.node,
        MAX_SCRIPT_SIZE, MAX_PUBKEYS_PER_MULTISIG]
      rw [if_neg (by omega), if_neg (by omega)]
      exact Segwitv0.scanKeys_ok keys hkeys
    · simp only [Ctx.check_global_consensus_validity,
        BareCtx.check_global_consensus_validity, MSNode.ext, MSNode.node,
        MAX_SCRIPT_SIZE, MAX_PUBKEYS_PER_MULTISIG]
      rw [if_neg (by omega), if_neg (by omega)]
      rw [List.find?_eq_none.mpr (fun pk hpk => by simp [(hkeys pk hpk).2])]
  · intro hcost hlen
    simp only [MAX_SCRIPT_ELEMENT_SIZE] at hcost
    refine ⟨?_, ?_, ?_⟩
    · simp only [Ctx.check_global_consensus_validity,
        Legacy.check_global_consensus_validity, MSNode.ext, MSNode.node,
        MAX_SCRIPT_ELEMENT_SIZE, MAX_PUBKEYS_PER_MULTISIG]
      rw [if_neg (by omega), if_pos (by omega)]
    · simp only [Ctx.check_global_consensus_validity,
        Segwitv0.check_global_consensus_validity, MSNode.ext, MSNode.node,
        MAX_SCRIPT_SIZE, MAX_PUBKEYS_PER_MULTISIG]
      rw [if_neg (by omega), if_pos (by omega)]
    · simp only [Ctx.check_global_consensus_validity,
        BareCtx.check_global_consensus_validity, MSNode.ext, MSNode.node,
        MAX_SCRIPT_SIZE, MAX_PUBKEYS_PER_MULTISIG]
      rw [if_neg (by omega), if_pos (by omega)]
  · intro hcost
    simp only [MAX_SCRIPT_ELEMENT_SIZE] at hcost
    refine ⟨?_, ?_, ?_⟩
    · simp only [Ctx.check_global_consensus_validity,
        Legacy.check_global_consensus_validity, MSNode.ext, MSNode.node,
        MAX_SCRIPT_ELEMENT_SIZE]
      rw [if_neg (by omega)]
    · simp only [Ctx.check_global_consensus_validity,
        Segwitv0.check_global_consensus_validity, MSNode.ext, MSNode.node, MAX_SCRIPT_SIZE]
      rw [if_neg (by omega)]
    · simp only [Ctx.check_global_consensus_validity,
        BareCtx.check_global_consensus_validity, MSNode.ext, MSNode.node, MAX_SCRIPT_SIZE]
      rw [if_neg (by omega)]

/-- Witness for C4: boundary cases at a concrete 20-key and 21-key
multisig. -/
theorem C4_multi_per_context_witness :
    Ctx.check_global_consensus_validity .legacy esU
      (.mk (.Multi 2 (List.replicate 20 compKey)) ty0 ext0) = .ok () ∧
    Ctx.check_global_consensus_validity .legacy esU
      (.mk (.Multi 2 (List.replicate 21 compKey)) ty0 ext0) =
      .error .CheckMultiSigLimitExceeded ∧
    Ctx.check_global_consensus_validity .tap esU
      (.mk (.Multi 2 (List.replicate 20 compKey)) ty0 ext0) =
      .error .TaprootMultiDisabled := by
  refine ⟨?_, ?_, ?_⟩
  · exact (((C4_multi_per_context esU ty0 ext0 2 (List.replicate 20 compKey)).2.2.1
      (by simp [ext0]) (by simp)
      (fun pk hpk => by 
        have : pk = compKey := List.eq_of_mem_replicate hpk
        simp [this, compKey]))).1
  · exact ((C4_multi_per_context esU ty0 ext0 2 (List.replicate 21 compKey)).2.2.2.1
      (by simp [ext0]) (by simp)).1
  · exact (C4_multi_per_context esU ty0 ext0 2 (List.replicate 20 compKey)).2.1
      (by simp [ext0])

/-- Claim C5 (amended): `check_witness` fails exactly when the witness's
element count exceeds 100 under Segwitv0 and 1000 under Tap; under Legacy
it fails exactly when the witness's serialized scriptSig byte length
exceeds `MAX_SCRIPTSIG_SIZE` (1650) — a byte-size ceiling, not an
element-count ceiling; under BareCtx and NoChecks it never fails. -/
theorem C5_check_witness_amended (w : List (List Nat)) :
    (Ctx.check_witness .segwitv0 w = .ok () ↔
      w.length ≤ MAX_STANDARD_P2WSH_STACK_ITEMS) ∧
    (Ctx.check_witness .tap w = .ok () ↔ w.length ≤ MAX_STACK_SIZE) ∧
    (Ctx.check_witness .legacy w = .ok () ↔
      witness_to_scriptsig_len w ≤ MAX_SCRIPTSIG_SIZE) ∧
    Ctx.check_witness .bareCtx w = .ok () ∧
    Ctx.check_witness .noChecks w = .ok () := by
  refine ⟨?_, ?_, ?_, rfl, rfl⟩
  · simp only [Ctx.check_witness, Segwitv0.check_witness]
    split <;> rename_i h <;> simp <;> omega
  · simp only [Ctx.check_witness, Tap.check_witness]
    split <;> rename_i h <;> simp <;> omega
  · simp only [Ctx.check_witness, Legacy.check_witness]
    split <;> rename_i h <;> simp <;> omega

set_option maxRecDepth 20000 in
/-- Counterexample for C5: under Legacy a witness with a single (1700-byte)
element — an element count of 1, below every stack-item ceiling — is
rejected, because the check is on scriptSig byte size. -/
theorem C5_counterexample :
    Ctx.check_witness .legacy [List.replicate 1700 0] =
      .error .MaxScriptSigSizeExceeded ∧
    ([List.replicate 1700 0] : List (List Nat)).length = 1 ∧
    witness_to_scriptsig_len [List.replicate 1700 0] = 1703 := by
  refine ⟨?_, rfl, ?_⟩ <;> rfl

/-- Unfolding lemma: one iteration of `parseLoop` whenever fuel remains. -/
theorem parseLoop_pos (ctx : Ctx) (P : Params ExtT) (fuel : Nat) (hf : 0 < fuel)
    (st : PState ExtT) :
    parseLoop ctx P fuel st =
      match parseStep ctx P st with
      | .cont st' => parseLoop ctx P (fuel - 1) st'
      | .done ms => .ok ms
      | .fail e => .err e
      | .crash => .crash := by
  cases fuel with
  | zero => omega
  | succ m => rfl

/-- Success analysis of the shared reduce body: a node accepted by
`mkChecked` passed both type checks and `check_global_validity`. -/
theorem mkChecked_ok {ExtT : Type} (ctx : Ctx) (P : Params ExtT)
    (t : Terminal ExtT (MSNode ExtT)) (ms : MSNode ExtT)
    (h : mkChecked ctx P t = .ok ms) :
    ms.node = t ∧ P.tyF t = some ms.ty ∧ P.exF t = some ms.ext ∧
      Ctx.check_global_validity ctx P.extSegwit ms = .ok () := by
  unfold mkChecked at h
  split at h
  · exact absurd h (by simp)
  · split at h
    · exact absurd h (by simp)
    · dsimp only [] at h
      split at h
      · exact absurd h (by simp)
      · rename_i x2 ty hty x1 ext hext x0 u hcheck
        simp only [Except.ok.injEq] at h
        subst h
        cases u
        exact ⟨rfl, hty, hext, hcheck⟩

/-- Claim C1 (amended): every node built by `reduce0` (leaves, thresholds,
multisig), `reduce1` (wrappers) and `reduce2` (two-child combinators) is
type-checked and then validated with `Ctx::check_global_validity` before
being pushed; the three-child `AndOr` built by the `Tern` arm is
type-checked but pushed without any `check_global_validity` call. -/
theorem C1_reduction_checks {ExtT : Type} (ctx : Ctx) (P : Params ExtT) :
    (∀ t stack out, reduce0 ctx P t stack = .ok out →
      ∃ ms, out = ms :: stack ∧ P.tyF ms.node = some ms.ty ∧
        P.exF ms.node = some ms.ext ∧
        Ctx.check_global_validity ctx P.extSegwit ms = .ok ()) ∧
    (∀ wrap stack out, reduce1 ctx P wrap stack = some (.ok out) →
      ∃ ms tr, out = ms :: tr ∧ P.tyF ms.node = some ms.ty ∧
        P.exF ms.node = some ms.ext ∧
        Ctx.check_global_validity ctx P.extSegwit ms = .ok ()) ∧
    (∀ wrap stack out, reduce2 ctx P wrap stack = some (.ok out) →
      ∃ ms tr, out = ms :: tr ∧ P.tyF ms.node = some ms.ty ∧
        P.exF ms.node = some ms.ext ∧
        Ctx.check_global_validity ctx P.extSegwit ms = .ok ()) ∧
    (∀ stack out, reduceTern P stack = some (.ok out) →
      ∃ a b c tr ty ext, stack = a :: b :: c :: tr ∧
        out = MSNode.mk (.AndOr a c b) ty ext :: tr ∧
        P.tyF (.AndOr a c b) = some ty ∧ P.exF (.AndOr a c b) = some ext) := by
  refine ⟨?_, ?_, ?_, ?_⟩
  · intro t stack out h
    unfold reduce0 at h
    split at h
    · exact absurd h (by simp)
    · rename_i x ms hm
      simp only [Except.ok.injEq] at h
      obtain ⟨hnode, h1, h2, h3⟩ := mkChecked_ok ctx P t ms hm
      exact ⟨ms, h.symm, by rw [hnode]; exact h1, by rw [hnode]; exact h2, h3⟩
  · intro wrap stack out h
    unfold reduce1 at h
    cases stack with
    | nil => exact absurd h (by simp)
    | cons top tr =>
      simp only [Option.some.injEq] at h
      split at h
      · exact absurd h (by simp)
      · rename_i x ms hm
        simp only [Except.ok.injEq] at h
        obtain ⟨hnode, h1, h2, h3⟩ := mkChecked_ok ctx P (wrap top) ms hm
        exact ⟨ms, tr, h.symm, by rw [hnode]; exact h1, by rw [hnode]; exact h2, h3⟩
  · intro wrap stack out h
    unfold reduce2 at h
    cases stack with
    | nil => exact absurd h (by simp)
    | cons left stack2 =>
      cases stack2 with
      | nil => exact absurd h (by simp)
      | cons right tr =>
        simp only [Option.some.injEq] at h
        split at h
        · exact absurd h (by simp)
        · rename_i x ms hm
          simp only [Except.ok.injEq] at h
          obtain ⟨hnode, h1, h2, h3⟩ := mkChecked_ok ctx P (wrap left right) ms hm
          exact ⟨ms, tr, h.symm, by rw [hnode]; exact h1, by rw [hnode]; exact h2, h3⟩
  · intro stack out h
    unfold reduceTern at h
    cases stack with
    | nil => exact absurd h (by simp)
    | cons a stack2 =>
      cases stack2 with
      | nil => exact absurd h (by simp)
      | cons b stack3 =>
        cases stack3 with
        | nil => exact absurd h (by simp)
        | cons c tr =>
          simp only [Option.some.injEq] at h
          split at h
          · exact absurd h (by simp)
          · split at h
            · exact absurd h (by simp)
            · rename_i x1 ty hty x0 ext hext
              simp only [Except.ok.injEq] at h
              exact ⟨a, b, c, tr, ty, ext, rfl, h.symm, hty, hext⟩

/-- Witness for C1 at a concrete `reduce0` call. -/
theorem C1_reduction_checks_witness :
    ∃ ms, [MSNode.mk (Terminal.True) ty0 ext0] = ms :: ([] : List (MSNode Unit)) ∧
      trivialParams.tyF ms.node = some ms.ty ∧
      trivialParams.exF ms.node = some ms.ext ∧
      Ctx.check_global_validity .legacy trivialParams.extSegwit ms = .ok () :=
  (C1_reduction_checks .legacy trivialParams).1 .True [] _ rfl

/-- Collaborator bundle used by the C1 counterexample: the extra-property
checker assigns an `AndOr` node a script cost of 521 bytes (over the
Legacy 520-byte redeem-script ceiling) and every other node cost 0. -/
def andOrParams : Params Unit :=
  { tyF := fun _ => some ty0
    exF := fun t =>
      some { ext0 with pk_cost := match t with | .AndOr _ _ _ => 521 | _ => 0 }
    extParse := fun _ => none
    extSegwit := fun _ => .ok () }

/-- The reversed-script token stream of `andor(pk, pk, pk)`:
`[X] NOTIF [Z] ELSE [Y] ENDIF` read from the end. -/
def andOrToks : List Tk :=
  [.EndIf, .Pubkey compKey, .Else, .Pubkey compKey, .NotIf, .Pubkey compKey]

def pkNode : MSNode Unit := .mk (.PkK compKey) ty0 ext0

def andOrNode : MSNode Unit :=
  .mk (.AndOr pkNode pkNode pkNode) ty0 { ext0 with pk_cost := 521 }

/-- Counterexample for C1: decoding `andor(pk,pk,pk)` under Legacy
succeeds even though the root `AndOr` node fails
`Ctx::check_global_validity` (its script cost exceeds the Legacy
redeem-script ceiling): the `Tern` reduction pushed it without
context-validating it. -/
theorem C1_counterexample :
    parse .legacy andOrParams andOrToks = .ok andOrNode ∧
    Ctx.check_global_validity .legacy andOrParams.extSegwit andOrNode =
      .error .MaxRedeemScriptSizeExceeded :=
  ⟨rfl, rfl⟩

/-- Token stream of a 1-of-20 CHECKMULTISIG (reversed script order). -/
def multi20Toks : List Tk :=
  .CheckMultiSig :: .Num 20 :: (List.replicate 20 (Tk.Pubkey compKey) ++ [Tk.Num 1])

def multi20Node : MSNode Unit := .mk (.Multi 1 (List.replicate 20 compKey)) ty0 ext0

/-- Claim C2: a CHECKMULTISIG key count over 20 is an immediate parse
error `CmsTooManyKeys(n)` under every context (and any token tail), while
a key count of exactly 20 is not a parse error: a 1-of-20 multisig decodes
successfully. -/
theorem C2_cms_key_ceiling {ExtT : Type} (ctx : Ctx) (P : Params ExtT)
    (n : Nat) (rest : List Tk) (hn : 20 < n)
    (hext : P.extParse (.CheckMultiSig :: .Num n :: rest) = none) :
    parse ctx P (.CheckMultiSig :: .Num n :: rest) = .err (.cmsTooManyKeys n) ∧
    parse .legacy trivialParams multi20Toks = .ok multi20Node := by
  constructor
  · rw [parse, parseLoop_pos _ _ _ (by omega)]
    simp [parseStep, hext, stepExpression, hn]
  · rfl

/-- Witness for C2 at key count 21 under the Tap context. -/
theorem C2_cms_key_ceiling_witness :
    parse .tap trivialParams [Tk.CheckMultiSig, Tk.Num 21] =
      .err (.cmsTooManyKeys 21) :=
  (C2_cms_key_ceiling .tap trivialParams 21 [] (by omega) rfl).1

/-- Is a node's fragment a `Swap` wrapper? -/
def isSwapNode (ms : MSNode ExtT) : Bool :=
  match ms.node with
  | .Swap _ => true
  | _ => false

def node0 : MSNode Unit := .mk (.PkK compKey) ty0 ext0

def nodeSwap0 : MSNode Unit := .mk (.Swap node0) ty0 ext0

/-- Claim C9 (amended): popping maybe-AND-sequence is a lookahead-only
decision pushing a fresh `Expression` over an `AndV` expectation (or a
no-op); popping maybe-swap on a `SWAP` lookahead instead consumes the
token, immediately wraps the top completed term via `reduce1`
(type-checked and context-validated) and re-pushes `MaybeSwap` — it does
not push a bare-expression expectation; otherwise it is a no-op. -/
theorem C9_maybe_dispatch {ExtT : Type} (ctx : Ctx) (P : Params ExtT)
    (toks : List Tk) (rest : List NonTerm) (term : List (MSNode ExtT)) :
    (is_and_v toks = true →
      parseStep ctx P ⟨toks, .MaybeAndV :: rest, term⟩ =
        .cont ⟨toks, .Expression :: .AndV :: rest, term⟩) ∧
    (is_and_v toks = false →
      parseStep ctx P ⟨toks, .MaybeAndV :: rest, term⟩ = .cont ⟨toks, rest, term⟩) ∧
    (∀ toks' top tr ms,
      toks = .Swap :: toks' →
      term = top :: tr →
      mkChecked ctx P (.Swap top) = .ok ms →
      parseStep ctx P ⟨toks, .MaybeSwap :: rest, term⟩ =
        .cont ⟨toks', .MaybeSwap :: rest, ms :: tr⟩) ∧
    (toks.head? ≠ some .Swap →
      parseStep ctx P ⟨toks, .MaybeSwap :: rest, term⟩ = .cont ⟨toks, rest, term⟩) := by
  refine ⟨?_, ?_, ?_, ?_⟩
  · intro hv
    simp [parseStep, hv]
  · intro hv
    simp [parseStep, hv]
  · intro toks' top tr ms htoks hterm hmk
    subst htoks hterm
    simp [parseStep, reduce1, hmk]
  · intro hne
    cases toks with
    | nil => simp [parseStep]
    | cons t ts => cases t <;> simp_all [parseStep]

/-- Witness for C9: a concrete maybe-AND-sequence push and a concrete
maybe-swap no-op. -/
theorem C9_maybe_dispatch_witness :
    parseStep .legacy trivialParams ⟨[Tk.Pubkey compKey], [.MaybeAndV], []⟩ =
      .cont ⟨[Tk.Pubkey compKey], [.Expression, .AndV], []⟩ ∧
    parseStep .legacy trivialParams ⟨[Tk.EndIf], [.MaybeSwap], []⟩ =
      .cont ⟨[Tk.EndIf], [], []⟩ := by
  constructor
  · exact (C9_maybe_dispatch .legacy trivialParams [Tk.Pubkey compKey] [] []).1 rfl
  · exact (C9_maybe_dispatch .legacy trivialParams [Tk.EndIf] [] []).2.2.2 (by simp)

/-- Counterexample for C9: with `SWAP` as the next token, the maybe-swap
step does not push a fresh bare-expression expectation over a combinator
expectation; it consumes the token and rewrites the completed-term stack
(the top term gets `Swap`-wrapped). -/
theorem C9_counterexample :
    parseStep .legacy trivialParams ⟨[Tk.Swap], [.MaybeSwap], [node0]⟩ =
      .cont ⟨[], [.MaybeSwap], [nodeSwap0]⟩ ∧
    (([.MaybeSwap] : List NonTerm).head? ≠ some .Expression) ∧
    isSwapNode nodeSwap0 = true ∧
    isSwapNode node0 = false ∧
    ([] : List Tk).length ≠ ([Tk.Swap] : List Tk).length := by
  refine ⟨rfl, by simp, rfl, rfl, by simp⟩

/-! ## Stack discipline of the parser (towards claim C10)

Each pending nonterminal is assigned the number of completed terms it pops
when dispatched (`rNT`) and its net effect on the completed-term stack
over its whole lifetime (`nuNT`).  `stackOk` states that, walking the
pending stack top-down and accumulating net effects, every expectation
will find enough completed terms; together with the bookkeeping identity
`|term| + nuSum nonTerm = 1` this is the loop invariant of `parse`. -/

def rNT : NonTerm → Nat
  | .Expression => 0
  | .MaybeSwap => 1
  | .MaybeAndV => 1
  | .Alt => 1
  | .Check => 1
  | .DupIf => 1
  | .Verify => 1
  | .NonZero => 1
  | .ZeroNotEqual => 1
  | .AndV => 2
  | .AndB => 2
  | .OrB => 2
  | .OrC => 2
  | .OrD => 2
  | .Tern => 3
  | .ThreshW _ n => n
  | .ThreshE _ n => n
  | .EndIf => 1
  | .EndIfNotIf => 1
  | .EndIfElse => 2

def nuNT : NonTerm → Int
  | .Expression => 1
  | .MaybeSwap => 0
  | .MaybeAndV => 0
  | .Alt => 0
  | .Check => 0
  | .DupIf => 0
  | .Verify => 0
  | .NonZero => 0
  | .ZeroNotEqual => 0
  | .AndV => -1
  | .AndB => -1
  | .OrB => -1
  | .OrC => -1
  | .OrD => -1
  | .Tern => -2
  | .ThreshW _ n => 1 - n
  | .ThreshE _ n => 1 - n
  | .EndIf => 0
  | .EndIfNotIf => 0
  | .EndIfElse => -1

def nuSum : List NonTerm → Int
  | [] => 0
  | nt :: rest => nuNT nt + nuSum rest

def stackOk : List NonTerm → Int → Prop
  | [], _ => True
  | nt :: rest, t => (rNT nt : Int) ≤ t ∧ stackOk rest (t + nuNT nt)

/-- The loop invariant of `parse`. -/
def PInv (st : PState ExtT) : Prop :=
  stackOk st.nonTerm (st.term.length : Int) ∧
  (st.term.length : Int) + nuSum st.nonTerm = 1

theorem nuSum_append (xs ys : List NonTerm) :
    nuSum (xs ++ ys) = nuSum xs + nuSum ys := by
  induction xs with
  | nil => simp [nuSum]
  | cons x xs ih => simp [nuSum, ih]; ring

theorem stackOk_congr {rest : List NonTerm} {t t' : Int}
    (h : stackOk rest t) (he : t = t') : stackOk rest t' := he ▸ h

theorem stackOk_append (xs ys : List NonTerm) (t : Int) :
    stackOk (xs ++ ys) t ↔ stackOk xs t ∧ stackOk ys (t + nuSum xs) := by
  induction xs generalizing t with
  | nil => simp [stackOk, nuSum]
  | cons x xs ih =>
    simp only [List.cons_append, stackOk, nuSum, List.append_eq]
    rw [ih]
    constructor
    · rintro ⟨h1, h2, h3⟩
      exact ⟨⟨h1, h2⟩, stackOk_congr h3 (by ring)⟩
    · rintro ⟨⟨h1, h2⟩, h3⟩
      exact ⟨h1, h2, stackOk_congr h3 (by ring)⟩

/-- Token weight of a pending nonterminal, for the termination measure. -/
def wNT : NonTerm → Nat
  | .Expression => 0
  | _ => 1

def wSum : List NonTerm → Nat
  | [] => 0
  | nt :: rest => wNT nt + wSum rest

theorem wSum_append (xs ys : List NonTerm) : wSum (xs ++ ys) = wSum xs + wSum ys := by
  induction xs with
  | nil => simp [wSum]
  | cons x xs ih => simp [wSum, ih]; ring

/-- `readKeys` only consumes tokens. -/
theorem readKeys_length :
    ∀ (n : Nat) (toks : List Tk) (ks : List PubKey) (r : List Tk),
      readKeys n toks = .ok (ks, r) → r.length ≤ toks.length := by
  intro n
  induction n with
  | zero =>
    intro toks ks r h
    simp only [readKeys, Except.ok.injEq, Prod.mk.injEq] at h
    exact le_of_eq (by rw [h.2])
  | succ m ih =>
    intro toks ks r h
    cases toks with
    | nil => simp [readKeys] at h
    | cons t rest =>
      cases t <;> simp only [readKeys] at h
      all_goals try exact absurd h (by simp)
      split at h
      · exact absurd h (by simp)
      · rename_i ks2 r2 hrec
        simp only [Except.ok.injEq, Prod.mk.injEq] at h
        obtain ⟨-, rfl⟩ := h
        have := ih rest ks2 r2 hrec
        simp only [List.length_cons]
        omega

theorem stepExpression_shape {ExtT : Type} (toks : List Tk)
    (out : List Tk × List NonTerm × Option (Terminal ExtT (MSNode ExtT)))
    (h : stepExpression toks = .ok out) :
    out.1.length < toks.length ∧
    wSum out.2.1 ≤ 3 ∧
    nuSum out.2.1 + (if out.2.2.isSome then 1 else 0) = 1 ∧
    ∀ t : Int, 0 ≤ t → stackOk out.2.1 (t + (if out.2.2.isSome then 1 else 0)) := by
  unfold stepExpression at h
  iterate 8 (all_goals try split at h)
  all_goals cases h
  all_goals refine ⟨?_, ?_, ?_, fun t ht => ?_⟩
  all_goals try (simp only [List.length_cons]; omega)
  all_goals try (simp [wSum, wNT])
  all_goals try (simp [nuSum, nuNT])
  all_goals try (simp [stackOk, rNT, nuNT] <;> omega)
  all_goals
    (rename_i heq
     have hlen := readKeys_length _ _ _ _ heq
     simp only [List.length_cons] at hlen ⊢
     omega)

/-! ## Shapes of the reduce helpers -/

theorem reduce0_ok_cons {ExtT : Type} (ctx : Ctx) (P : Params ExtT)
    (t : Terminal ExtT (MSNode ExtT)) (stack out : List (MSNode ExtT))
    (h : reduce0 ctx P t stack = .ok out) : ∃ ms, out = ms :: stack := by
  unfold reduce0 at h
  split at h
  · cases h
  · cases h; rename_i ms hm; exact ⟨ms, rfl⟩

theorem reduce1_ok_cons {ExtT : Type} (ctx : Ctx) (P : Params ExtT)
    (w : MSNode ExtT → Terminal ExtT (MSNode ExtT)) (top : MSNode ExtT)
    (tr out : List (MSNode ExtT))
    (h : reduce1 ctx P w (top :: tr) = some (.ok out)) : ∃ ms, out = ms :: tr := by
  simp only [reduce1, Option.some.injEq] at h
  split at h
  · cases h
  · cases h; rename_i ms hm; exact ⟨ms, rfl⟩

theorem reduce2_ok_cons {ExtT : Type} (ctx : Ctx) (P : Params ExtT)
    (w : MSNode ExtT → MSNode ExtT → Terminal ExtT (MSNode ExtT))
    (a b : MSNode ExtT) (tr out : List (MSNode ExtT))
    (h : reduce2 ctx P w (a :: b :: tr) = some (.ok out)) : ∃ ms, out = ms :: tr := by
  simp only [reduce2, Option.some.injEq] at h
  split at h
  · cases h
  · cases h; rename_i ms hm; exact ⟨ms, rfl⟩

theorem reduceTern_ok_cons {ExtT : Type} (P : Params ExtT)
    (a b c : MSNode ExtT) (tr out : List (MSNode ExtT))
    (h : reduceTern P (a :: b :: c :: tr) = some (.ok out)) : ∃ ms, out = ms :: tr := by
  simp only [reduceTern, Option.some.injEq] at h
  split at h
  · cases h
  · split at h
    · cases h
    · cases h; rename_i ty hty ext hext; exact ⟨_, rfl⟩

/-- The maybe-swap no-op arm, characterized for an arbitrary non-`SWAP`
lookahead. -/
theorem parseStep_maybeSwap_no {ExtT : Type} (ctx : Ctx) (P : Params ExtT)
    (toks : List Tk) (rest : List NonTerm) (term : List (MSNode ExtT))
    (hne : toks.head? ≠ some Tk.Swap) :
    parseStep ctx P ⟨toks, .MaybeSwap :: rest, term⟩ = .cont ⟨toks, rest, term⟩ := by
  cases toks with
  | nil => simp [parseStep]
  | cons t ts => cases t <;> simp_all [parseStep]

/-- The threshold-accumulation close arm (`x => un_next; ThreshE`),
characterized for an arbitrary non-`ADD` lookahead. -/
theorem parseStep_threshW_close {ExtT : Type} (ctx : Ctx) (P : Params ExtT)
    (t : Tk) (ts : List Tk) (rest : List NonTerm) (term : List (MSNode ExtT))
    (k n : Nat) (hne : t ≠ Tk.Add) :
    parseStep ctx P ⟨t :: ts, .ThreshW k n :: rest, term⟩ =
      .cont ⟨t :: ts, .Expression :: .MaybeSwap :: .ThreshE k (n + 1) :: rest, term⟩ := by
  cases t <;> simp_all [parseStep]

/-- The `EndIfNotIf` `x => un_next; OrC` arm, characterized for an
arbitrary non-`IFDUP` lookahead. -/
theorem parseStep_endIfNotIf_orC {ExtT : Type} (ctx : Ctx) (P : Params ExtT)
    (t : Tk) (ts : List Tk) (rest : List NonTerm) (term : List (MSNode ExtT))
    (hne : t ≠ Tk.IfDup) :
    parseStep ctx P ⟨t :: ts, .EndIfNotIf :: rest, term⟩ =
      .cont ⟨t :: ts, .Expression :: .OrC :: rest, term⟩ := by
  cases t <;> simp_all [parseStep]

/-- Soundness of one parser step: from an invariant state the step never
crashes — it continues in an invariant state, finishes, or fails with a
typed error. -/
theorem parseStep_sound {ExtT : Type} (ctx : Ctx) (P : Params ExtT)
    (toks : List Tk) (nts : List NonTerm) (term : List (MSNode ExtT))
    (hInv : PInv (⟨toks, nts, term⟩ : PState ExtT)) :
    (∃ st', parseStep ctx P ⟨toks, nts, term⟩ = .cont st' ∧ PInv st') ∨
    (∃ ms, parseStep ctx P ⟨toks, nts, term⟩ = .done ms) ∨
    (∃ e, parseStep ctx P ⟨toks, nts, term⟩ = .fail e) := by
  cases nts with
  | nil =>
    have hlen : term.length = 1 := by
      have h2 := hInv.2
      simp only [nuSum] at h2
      omega
    cases term with
    | nil => simp at hlen
    | cons a tr =>
      cases tr with
      | nil => exact Or.inr (Or.inl ⟨a, by simp [parseStep]⟩)
      | cons b tr2 => simp at hlen
  | cons nt rest =>
    have hr := hInv.1.1
    have htail := hInv.1.2
    have htot := hInv.2
    dsimp only at hr htail
    simp only [nuSum] at htot
    cases nt
    case Expression =>
      cases hep : P.extParse toks with
      | some pr =>
        obtain ⟨e, toks2⟩ := pr
        cases hred : reduce0 ctx P (.Ext e) term with
        | error err => exact Or.inr (Or.inr ⟨err, by simp [parseStep, hep, hred]⟩)
        | ok stack' =>
          obtain ⟨ms, rfl⟩ := reduce0_ok_cons _ _ _ _ _ hred
          refine Or.inl ⟨⟨toks2, rest, ms :: term⟩, by simp [parseStep, hep, hred], ?_, ?_⟩
          · exact stackOk_congr htail
              (by simp only [nuNT, List.length_cons]; push_cast; ring)
          · simp only [nuNT, nuSum, List.length_cons] at htot ⊢
            push_cast at htot ⊢
            omega
      | none =>
        cases hse : @stepExpression ExtT toks with
        | error e => exact Or.inr (Or.inr ⟨e, by simp [parseStep, hep, hse]⟩)
        | ok out =>
          obtain ⟨toks2, pushes, red⟩ := out
          obtain ⟨hlen, hw, hnu, hstk⟩ := stepExpression_shape toks _ hse
          cases red with
          | none =>
            simp only [Option.isSome_none, Bool.false_eq_true, if_false, add_zero] at hnu hstk
            refine Or.inl ⟨⟨toks2, pushes ++ rest, term⟩,
              by simp [parseStep, hep, hse], ?_, ?_⟩
            · rw [stackOk_append]
              refine ⟨hstk _ (by omega), ?_⟩
              refine stackOk_congr htail ?_
              simp only [nuNT]
              omega
            · rw [nuSum_append]
              simp only [nuNT] at htot ⊢
              omega
          | some tfrag =>
            simp only [Option.isSome_some, if_true] at hnu hstk
            cases hred : reduce0 ctx P tfrag term with
            | error err => exact Or.inr (Or.inr ⟨err, by simp [parseStep, hep, hse, hred]⟩)
            | ok stack' =>
              obtain ⟨ms, rfl⟩ := reduce0_ok_cons _ _ _ _ _ hred
              refine Or.inl ⟨⟨toks2, pushes ++ rest, ms :: term⟩,
                by simp [parseStep, hep, hse, hred], ?_, ?_⟩
              · rw [stackOk_append]
                constructor
                · refine stackOk_congr (hstk ↑term.length (by omega)) ?_
                  simp only [List.length_cons]
                  push_cast
                  ring
                · refine stackOk_congr htail ?_
                  simp only [nuNT, List.length_cons] at hnu ⊢
                  push_cast
                  omega
              · rw [nuSum_append]
                simp only [nuNT, List.length_cons] at htot ⊢
                push_cast at htot ⊢
                omega
    case MaybeAndV =>
      by_cases hv : is_and_v toks
      · refine Or.inl ⟨⟨toks, .Expression :: .AndV :: rest, term⟩,
          by simp [parseStep, hv], ?_, ?_⟩
        · simp only [rNT] at hr
          refine ⟨by simp only [rNT]; omega, ?_, ?_⟩
          · simp only [rNT, nuNT]
            omega
          · refine stackOk_congr htail ?_
            simp only [nuNT]
            omega
        · simp only [nuSum, nuNT] at htot ⊢
          omega
      · refine Or.inl ⟨⟨toks, rest, term⟩, by simp [parseStep, hv], ?_, ?_⟩
        · refine stackOk_congr htail ?_
          simp only [nuNT]
          omega
        · simp only [nuNT] at htot ⊢
          omega
    case MaybeSwap =>
      cases toks with
      | nil =>
        refine Or.inl ⟨⟨[], rest, term⟩,
          parseStep_maybeSwap_no ctx P [] rest term (by simp), ?_, ?_⟩
        · refine stackOk_congr htail ?_
          simp only [nuNT]
          omega
        · simp only [nuNT] at htot ⊢
          omega
      | cons t ts =>
        by_cases hsw : t = Tk.Swap
        · subst hsw
          simp only [rNT] at hr
          cases term with
          | nil =>
            exfalso
            simp only [List.length_nil] at hr
            omega
          | cons top tr =>
            cases hmk : mkChecked ctx P (.Swap top) with
            | error e =>
              exact Or.inr (Or.inr ⟨e, by simp [parseStep, reduce1, hmk]⟩)
            | ok ms =>
              refine Or.inl ⟨⟨ts, .MaybeSwap :: rest, ms :: tr⟩,
                by simp [parseStep, reduce1, hmk], ?_, ?_⟩
              · refine ⟨?_, ?_⟩
                · simp only [rNT, List.length_cons] at hr ⊢
                  omega
                · refine stackOk_congr htail ?_
                  simp [nuNT]
              · simp only [nuSum, nuNT, List.length_cons] at htot ⊢
                omega
        · refine Or.inl ⟨⟨t :: ts, rest, term⟩,
            parseStep_maybeSwap_no ctx P (t :: ts) rest term (by simpa using hsw), ?_, ?_⟩
          · refine stackOk_congr htail ?_
            simp only [nuNT]
            omega
          · simp only [nuNT] at htot ⊢
            omega
    case Alt =>
      cases toks with
      | nil => exact Or.inr (Or.inr ⟨.unexpected, by simp [parseStep]⟩)
      | cons t ts =>
        cases t
        case ToAltStack =>
          simp only [rNT] at hr
          cases term with
          | nil =>
            exfalso
            simp only [List.length_nil] at hr
            omega
          | cons top tr =>
            cases hmk : mkChecked ctx P (.Alt top) with
            | error e => exact Or.inr (Or.inr ⟨e, by simp [parseStep, reduce1, hmk]⟩)
            | ok ms =>
              refine Or.inl ⟨⟨ts, rest, ms :: tr⟩, by simp [parseStep, reduce1, hmk], ?_, ?_⟩
              · refine stackOk_congr htail ?_
                simp only [nuNT, List.length_cons]
                omega
              · simp only [nuNT, List.length_cons] at htot ⊢
                omega
        all_goals exact Or.inr (Or.inr ⟨.unexpected, by simp [parseStep]⟩)
    case Check =>
      simp only [rNT] at hr
      cases term with
      | nil =>
        exfalso
        simp only [List.length_nil] at hr
        omega
      | cons top tr =>
        cases hmk : mkChecked ctx P (.Check top) with
        | error e => exact Or.inr (Or.inr ⟨e, by simp [parseStep, reduce1, hmk]⟩)
        | ok ms =>
          refine Or.inl ⟨⟨toks, rest, ms :: tr⟩, by simp [parseStep, reduce1, hmk], ?_, ?_⟩
          · refine stackOk_congr htail ?_
            simp only [nuNT, List.length_cons]
            omega
          · simp only [nuNT, List.length_cons] at htot ⊢
            omega
    case DupIf =>
      simp only [rNT] at hr
      cases term with
      | nil =>
        exfalso
        simp only [List.length_nil] at hr
        omega
      | cons top tr =>
        cases hmk : mkChecked ctx P (.DupIf top) with
        | error e => exact Or.inr (Or.inr ⟨e, by simp [parseStep, reduce1, hmk]⟩)
        | ok ms =>
          refine Or.inl ⟨⟨toks, rest, ms :: tr⟩, by simp [parseStep, reduce1, hmk], ?_, ?_⟩
          · refine stackOk_congr htail ?_
            simp only [nuNT, List.length_cons]
            omega
          · simp only [nuNT, List.length_cons] at htot ⊢
            omega
    case Verify =>
      simp only [rNT] at hr
      cases term with
      | nil =>
        exfalso
        simp only [List.length_nil] at hr
        omega
      | cons top tr =>
        cases hmk : mkChecked ctx P (.Verify top) with
        | error e => exact Or.inr (Or.inr ⟨e, by simp [parseStep, reduce1, hmk]⟩)
        | ok ms =>
          refine Or.inl ⟨⟨toks, rest, ms :: tr⟩, by simp [parseStep, reduce1, hmk], ?_, ?_⟩
          · refine stackOk_congr htail ?_
            simp only [nuNT, List.length_cons]
            omega
          · simp only [nuNT, List.length_cons] at htot ⊢
            omega
    case NonZero =>
      simp only [rNT] at hr
      cases term with
      | nil =>
        exfalso
        simp only [List.length_nil] at hr
        omega
      | cons top tr =>
        cases hmk : mkChecked ctx P (.NonZero top) with
        | error e => exact Or.inr (Or.inr ⟨e, by simp [parseStep, reduce1, hmk]⟩)
        | ok ms =>
          refine Or.inl ⟨⟨toks, rest, ms :: tr⟩, by simp [parseStep, reduce1, hmk], ?_, ?_⟩
          · refine stackOk_congr htail ?_
            simp only [nuNT, List.length_cons]
            omega
          · simp only [nuNT, List.length_cons] at htot ⊢
            omega
    case ZeroNotEqual =>
      simp only [rNT] at hr
      cases term with
      | nil =>
        exfalso
        simp only [List.length_nil] at hr
        omega
      | cons top tr =>
        cases hmk : mkChecked ctx P (.ZeroNotEqual top) with
        | error e => exact Or.inr (Or.inr ⟨e, by simp [parseStep, reduce1, hmk]⟩)
        | ok ms =>
          refine Or.inl ⟨⟨toks, rest, ms :: tr⟩, by simp [parseStep, reduce1, hmk], ?_, ?_⟩
          · refine stackOk_congr htail ?_
            simp only [nuNT, List.length_cons]
            omega
          · simp only [nuNT, List.length_cons] at htot ⊢
            omega
    case AndV =>
      by_cases hv : is_and_v toks
      · refine Or.inl ⟨⟨toks, .MaybeAndV :: .AndV :: rest, term⟩,
          by simp [parseStep, hv], ?_, ?_⟩
        · simp only [rNT] at hr
          refine ⟨by simp only [rNT]; omega, ?_, ?_⟩
          · simp only [rNT, nuNT]
            omega
          · refine stackOk_congr htail ?_
            simp only [nuNT]
            omega
        · simp only [nuSum, nuNT] at htot ⊢
          omega
      · simp only [rNT] at hr
        cases term with
        | nil =>
          exfalso
          simp only [List.length_nil] at hr
          omega
        | cons a term2 =>
          cases term2 with
          | nil =>
            exfalso
            simp only [List.length_cons, List.length_nil] at hr
            omega
          | cons b tr =>
            cases hmk : mkChecked ctx P (.AndV a b) with
            | error e => exact Or.inr (Or.inr ⟨e, by simp [parseStep, hv, reduce2, hmk]⟩)
            | ok ms =>
              refine Or.inl ⟨⟨toks, rest, ms :: tr⟩,
                by simp [parseStep, hv, reduce2, hmk], ?_, ?_⟩
              · refine stackOk_congr htail ?_
                simp only [nuNT, List.length_cons]
                push_cast
                omega
              · simp only [nuNT, List.length_cons] at htot ⊢
                push_cast at htot ⊢
                omega
    case AndB =>
      simp only [rNT] at hr
      cases term with
      | nil =>
        exfalso
        simp only [List.length_nil] at hr
        omega
      | cons a term2 =>
        cases term2 with
        | nil =>
          exfalso
          simp only [List.length_cons, List.length_nil] at hr
          omega
        | cons b tr =>
          cases hmk : mkChecked ctx P (.AndB a b) with
          | error e => exact Or.inr (Or.inr ⟨e, by simp [parseStep, reduce2, hmk]⟩)
          | ok ms =>
            refine Or.inl ⟨⟨toks, rest, ms :: tr⟩,
              by simp [parseStep, reduce2, hmk], ?_, ?_⟩
            · refine stackOk_congr htail ?_
              simp only [nuNT, List.length_cons]
              push_cast
              omega
            · simp only [nuNT, List.length_cons] at htot ⊢
              push_cast at htot ⊢
              omega
    case OrB =>
      simp only [rNT] at hr
      cases term with
      | nil =>
        exfalso
        simp only [List.length_nil] at hr
        omega
      | cons a term2 =>
        cases term2 with
        | nil =>
          exfalso
          simp only [List.length_cons, List.length_nil] at hr
          omega
        | cons b tr =>
          cases hmk : mkChecked ctx P (.OrB a b) with
          | error e => exact Or.inr (Or.inr ⟨e, by simp [parseStep, reduce2, hmk]⟩)
          | ok ms =>
            refine Or.inl ⟨⟨toks, rest, ms :: tr⟩,
              by simp [parseStep, reduce2, hmk], ?_, ?_⟩
            · refine stackOk_congr htail ?_
              simp only [nuNT, List.length_cons]
              push_cast
              omega
            · simp only [nuNT, List.length_cons] at htot ⊢
              push_cast at htot ⊢
              omega
    case OrC =>
      simp only [rNT] at hr
      cases term with
      | nil =>
        exfalso
        simp only [List.length_nil] at hr
        omega
      | cons a term2 =>
        cases term2 with
        | nil =>
          exfalso
          simp only [List.length_cons, List.length_nil] at hr
          omega
        | cons b tr =>
          cases hmk : mkChecked ctx P (.OrC a b) with
          | error e => exact Or.inr (Or.inr ⟨e, by simp [parseStep, reduce2, hmk]⟩)
          | ok ms =>
            refine Or.inl ⟨⟨toks, rest, ms :: tr⟩,
              by simp [parseStep, reduce2, hmk], ?_, ?_⟩
            · refine stackOk_congr htail ?_
              simp only [nuNT, List.length_cons]
              push_cast
              omega
            · simp only [nuNT, List.length_cons] at htot ⊢
              push_cast at htot ⊢
              omega
    case OrD =>
      simp only [rNT] at hr
      cases term with
      | nil =>
        exfalso
        simp only [List.length_nil] at hr
        omega
      | cons a term2 =>
        cases term2 with
        | nil =>
          exfalso
          simp only [List.length_cons, List.length_nil] at hr
          omega
        | cons b tr =>
          cases hmk : mkChecked ctx P (.OrD a b) with
          | error e => exact Or.inr (Or.inr ⟨e, by simp [parseStep, reduce2, hmk]⟩)
          | ok ms =>
            refine Or.inl ⟨⟨toks, rest, ms :: tr⟩,
              by simp [parseStep, reduce2, hmk], ?_, ?_⟩
            · refine stackOk_congr htail ?_
              simp only [nuNT, List.length_cons]
              push_cast
              omega
            · simp only [nuNT, List.length_cons] at htot ⊢
              push_cast at htot ⊢
              omega
    case Tern =>
      simp only [rNT] at hr
      cases term with
      | nil =>
        exfalso
        simp only [List.length_nil] at hr
        omega
      | cons a term2 =>
        cases term2 with
        | nil =>
          exfalso
          simp only [List.length_cons, List.length_nil] at hr
          omega
        | cons b term3 =>
          cases term3 with
          | nil =>
            exfalso
            simp only [List.length_cons, List.length_nil] at hr
            omega
          | cons c tr =>
            cases hty : P.tyF (.AndOr a c b) with
            | none =>
              exact Or.inr (Or.inr ⟨.typeError, by simp [parseStep, reduceTern, hty]⟩)
            | some ty =>
              cases hex : P.exF (.AndOr a c b) with
              | none =>
                exact Or.inr (Or.inr ⟨.typeError, by simp [parseStep, reduceTern, hty, hex]⟩)
              | some ext =>
                refine Or.inl ⟨⟨toks, rest, MSNode.mk (.AndOr a c b) ty ext :: tr⟩,
                  by simp [parseStep, reduceTern, hty, hex], ?_, ?_⟩
                · refine stackOk_congr htail ?_
                  simp only [nuNT, List.length_cons]
                  push_cast
                  omega
                · simp only [nuNT, List.length_cons] at htot ⊢
                  push_cast at htot ⊢
                  omega
    case ThreshW k n =>
      cases toks with
      | nil => exact Or.inr (Or.inr ⟨.unexpected, by simp [parseStep]⟩)
      | cons t ts =>
        by_cases ht : t = Tk.Add
        · subst ht
          refine Or.inl ⟨⟨ts, .Expression :: .MaybeSwap :: .ThreshW k (n + 1) :: rest, term⟩,
            by simp [parseStep], ?_, ?_⟩
          · simp only [rNT] at hr
            refine ⟨by simp only [rNT]; omega, ?_, ?_, ?_⟩
            · simp only [rNT, nuNT]
              omega
            · simp only [rNT, nuNT]
              push_cast
              omega
            · refine stackOk_congr htail ?_
              simp only [nuNT]
              push_cast
              omega
          · simp only [nuSum, nuNT] at htot ⊢
            push_cast at htot ⊢
            omega
        · refine Or.inl ⟨⟨t :: ts, .Expression :: .MaybeSwap :: .ThreshE k (n + 1) :: rest, term⟩,
            parseStep_threshW_close ctx P t ts rest term k n ht, ?_, ?_⟩
          · simp only [rNT] at hr
            refine ⟨by simp only [rNT]; omega, ?_, ?_, ?_⟩
            · simp only [rNT, nuNT]
              omega
            · simp only [rNT, nuNT]
              push_cast
              omega
            · refine stackOk_congr htail ?_
              simp only [nuNT]
              push_cast
              omega
          · simp only [nuSum, nuNT] at htot ⊢
            push_cast at htot ⊢
            omega
    case ThreshE k n =>
      simp only [rNT] at hr
      have hn : n ≤ term.length := by exact_mod_cast hr
      cases hred : reduce0 ctx P (.Thresh k (term.take n)) (term.drop n) with
      | error e => exact Or.inr (Or.inr ⟨e, by simp [parseStep, if_pos hn, hred]⟩)
      | ok stack' =>
        obtain ⟨ms, rfl⟩ := reduce0_ok_cons _ _ _ _ _ hred
        refine Or.inl ⟨⟨toks, rest, ms :: term.drop n⟩,
          by simp [parseStep, if_pos hn, hred], ?_, ?_⟩
        · refine stackOk_congr htail ?_
          simp only [nuNT, List.length_cons, List.length_drop]
          omega
        · simp only [nuNT, List.length_cons, List.length_drop] at htot ⊢
          omega
    case EndIf =>
      cases toks with
      | nil => exact Or.inr (Or.inr ⟨.unexpected, by simp [parseStep]⟩)
      | cons t ts =>
        cases t
        case Else =>
          refine Or.inl ⟨⟨ts, .Expression :: .MaybeSwap :: .MaybeAndV :: .EndIfElse :: rest, term⟩,
            by simp [parseStep], ?_, ?_⟩
          · simp only [rNT] at hr
            refine ⟨by simp only [rNT]; omega, ?_, ?_, ?_, ?_⟩
            · simp only [rNT, nuNT]
              omega
            · simp only [rNT, nuNT]
              omega
            · simp only [rNT, nuNT]
              omega
            · refine stackOk_congr htail ?_
              simp only [nuNT]
              omega
          · simp only [nuSum, nuNT] at htot ⊢
            omega
        case If =>
          cases ts with
          | nil => exact Or.inr (Or.inr ⟨.unexpected, by simp [parseStep]⟩)
          | cons t2 ts2 =>
            cases t2
            case Dup =>
              refine Or.inl ⟨⟨ts2, .DupIf :: rest, term⟩, by simp [parseStep], ?_, ?_⟩
              · simp only [rNT] at hr
                refine ⟨by simp only [rNT]; omega, ?_⟩
                refine stackOk_congr htail ?_
                simp only [nuNT]
              · simp only [nuSum, nuNT] at htot ⊢
                omega
            case ZeroNotEqual =>
              cases ts2 with
              | nil => exact Or.inr (Or.inr ⟨.unexpected, by simp [parseStep]⟩)
              | cons t3 ts3 =>
                cases t3
                case Size =>
                  refine Or.inl ⟨⟨ts3, .NonZero :: rest, term⟩, by simp [parseStep], ?_, ?_⟩
                  · simp only [rNT] at hr
                    refine ⟨by simp only [rNT]; omega, ?_⟩
                    refine stackOk_congr htail ?_
                    simp only [nuNT]
                  · simp only [nuSum, nuNT] at htot ⊢
                    omega
                all_goals exact Or.inr (Or.inr ⟨.unexpected, by simp [parseStep]⟩)
            all_goals exact Or.inr (Or.inr ⟨.unexpected, by simp [parseStep]⟩)
        case NotIf =>
          refine Or.inl ⟨⟨ts, .EndIfNotIf :: rest, term⟩, by simp [parseStep], ?_, ?_⟩
          · simp only [rNT] at hr
            refine ⟨by simp only [rNT]; omega, ?_⟩
            refine stackOk_congr htail ?_
            simp only [nuNT]
          · simp only [nuSum, nuNT] at htot ⊢
            omega
        all_goals exact Or.inr (Or.inr ⟨.unexpected, by simp [parseStep]⟩)
    case EndIfNotIf =>
      cases toks with
      | nil => exact Or.inr (Or.inr ⟨.unexpected, by simp [parseStep]⟩)
      | cons t ts =>
        by_cases hid : t = Tk.IfDup
        · subst hid
          refine Or.inl ⟨⟨ts, .Expression :: .OrD :: rest, term⟩, by simp [parseStep], ?_, ?_⟩
          · simp only [rNT] at hr
            refine ⟨by simp only [rNT]; omega, ?_, ?_⟩
            · simp only [rNT, nuNT]
              omega
            · refine stackOk_congr htail ?_
              simp only [nuNT]
              omega
          · simp only [nuSum, nuNT] at htot ⊢
            omega
        · refine Or.inl ⟨⟨t :: ts, .Expression :: .OrC :: rest, term⟩,
            parseStep_endIfNotIf_orC ctx P t ts rest term hid, ?_, ?_⟩
          · simp only [rNT] at hr
            refine ⟨by simp only [rNT]; omega, ?_, ?_⟩
            · simp only [rNT, nuNT]
              omega
            · refine stackOk_congr htail ?_
              simp only [nuNT]
              omega
          · simp only [nuSum, nuNT] at htot ⊢
            omega
    case EndIfElse =>
      cases toks with
      | nil => exact Or.inr (Or.inr ⟨.unexpected, by simp [parseStep]⟩)
      | cons t ts =>
        cases t
        case If =>
          simp only [rNT] at hr
          cases term with
          | nil =>
            exfalso
            simp only [List.length_nil] at hr
            omega
          | cons a term2 =>
            cases term2 with
            | nil =>
              exfalso
              simp only [List.length_cons, List.length_nil] at hr
              omega
            | cons b tr =>
              cases hmk : mkChecked ctx P (.OrI a b) with
              | error e => exact Or.inr (Or.inr ⟨e, by simp [parseStep, reduce2, hmk]⟩)
              | ok ms =>
                refine Or.inl ⟨⟨ts, rest, ms :: tr⟩,
                  by simp [parseStep, reduce2, hmk], ?_, ?_⟩
                · refine stackOk_congr htail ?_
                  simp only [nuNT, List.length_cons]
                  push_cast
                  omega
                · simp only [nuNT, List.length_cons] at htot ⊢
                  push_cast at htot ⊢
                  omega
        case NotIf =>
          refine Or.inl ⟨⟨ts, .Expression :: .Tern :: rest, term⟩, by simp [parseStep], ?_, ?_⟩
          · simp only [rNT] at hr
            refine ⟨by simp only [rNT]; omega, ?_, ?_⟩
            · simp only [rNT, nuNT]
              omega
            · refine stackOk_congr htail ?_
              simp only [nuNT]
              omega
          · simp only [nuSum, nuNT] at htot ⊢
            omega
        all_goals exact Or.inr (Or.inr ⟨.unexpected, by simp [parseStep]⟩)

/-- The initial state of `parse` satisfies the loop invariant. -/
theorem PInv_init {ExtT : Type} (toks : List Tk) :
    PInv (⟨toks, [.Expression, .MaybeSwap, .MaybeAndV], []⟩ : PState ExtT) := by
  refine ⟨?_, ?_⟩
  · simp only [stackOk, rNT, nuNT, List.length_nil]
    norm_num
  · simp only [nuSum, nuNT, List.length_nil]
    norm_num

/-- The loop never reaches a panic from an invariant state. -/
theorem parseLoop_no_crash {ExtT : Type} (ctx : Ctx) (P : Params ExtT) :
    ∀ (fuel : Nat) (st : PState ExtT), PInv st → parseLoop ctx P fuel st ≠ .crash := by
  intro fuel
  induction fuel with
  | zero => intro st _; simp [parseLoop]
  | succ n ih =>
    intro st hInv
    obtain ⟨toks, nts, term⟩ := st
    rcases parseStep_sound ctx P toks nts term hInv with ⟨st', heq, hInv'⟩ | ⟨ms, heq⟩ | ⟨e, heq⟩ <;>
      simp [parseLoop, heq]
    exact ih st' hInv'

/-- Top-of-stack potential for the termination measure. -/
def vTop : List NonTerm → List Tk → Nat
  | [], _ => 0
  | .Expression :: _, _ => 0
  | .MaybeAndV :: _, toks => if is_and_v toks then 1 else 3
  | _ :: _, _ => 3

/-- The termination measure of the parser loop. -/
def M (st : PState ExtT) : Nat :=
  10 * st.tokens.length + wSum st.nonTerm + vTop st.nonTerm st.tokens

theorem vTop_le_three (nts : List NonTerm) (toks : List Tk) : vTop nts toks ≤ 3 := by
  cases nts with
  | nil => simp [vTop]
  | cons nt rest => cases nt <;> simp only [vTop] <;> (try split) <;> omega

/-- `vTop` at a concrete top-of-stack nonterminal. -/
theorem vTop_cons (nt : NonTerm) (r : List NonTerm) (toks : List Tk) :
    vTop (nt :: r) toks =
      (match nt with
      | .Expression => 0
      | .MaybeAndV => if is_and_v toks then 1 else 3
      | _ => 3) := by
  cases nt <;> rfl

/-- Every continuing parser step strictly decreases the measure, provided
the extension parser consumes at least one token on success (as
`Ext::from_token_iter` does). -/
theorem parseStep_measure {ExtT : Type} (ctx : Ctx) (P : Params ExtT)
    (hP : ∀ l e l', P.extParse l = some (e, l') → l'.length < l.length)
    (toks : List Tk) (nts : List NonTerm) (term : List (MSNode ExtT))
    (st' : PState ExtT)
    (h : parseStep ctx P ⟨toks, nts, term⟩ = .cont st') :
    M st' < M (⟨toks, nts, term⟩ : PState ExtT) := by
  cases nts with
  | nil =>
    cases term with
    | nil => simp [parseStep] at h
    | cons a tr =>
      cases tr with
      | nil => simp [parseStep] at h
      | cons b tr2 => simp [parseStep] at h
  | cons nt rest =>
    cases nt
    case Expression =>
      cases hep : P.extParse toks with
      | some pr =>
        obtain ⟨e, toks2⟩ := pr
        have hlt := hP toks e toks2 hep
        cases hred : reduce0 ctx P (.Ext e) term with
        | error err => simp [parseStep, hep, hred] at h
        | ok stack' =>
          have hstep : parseStep ctx P (⟨toks, .Expression :: rest, term⟩ : PState ExtT) =
              .cont ⟨toks2, rest, stack'⟩ := by simp [parseStep, hep, hred]
          rw [hstep] at h
          cases h
          have hv3 := vTop_le_three rest toks2
          simp only [M, wSum, wNT, vTop_cons]
          omega
      | none =>
        cases hse : @stepExpression ExtT toks with
        | error e => simp [parseStep, hep, hse] at h
        | ok out =>
          obtain ⟨toks2, pushes, red⟩ := out
          obtain ⟨hlen, hw, hnu, hstk⟩ := stepExpression_shape toks _ hse
          cases red with
          | none =>
            have hstep : parseStep ctx P (⟨toks, .Expression :: rest, term⟩ : PState ExtT) =
                .cont ⟨toks2, pushes ++ rest, term⟩ := by simp [parseStep, hep, hse]
            rw [hstep] at h
            cases h
            have hv3 := vTop_le_three (pushes ++ rest) toks2
            simp only [M, wSum_append, wSum, wNT, vTop_cons] at *
            omega
          | some tfrag =>
            cases hred : reduce0 ctx P tfrag term with
            | error err => simp [parseStep, hep, hse, hred] at h
            | ok stack' =>
              have hstep : parseStep ctx P (⟨toks, .Expression :: rest, term⟩ : PState ExtT) =
                  .cont ⟨toks2, pushes ++ rest, stack'⟩ := by simp [parseStep, hep, hse, hred]
              rw [hstep] at h
              cases h
              have hv3 := vTop_le_three (pushes ++ rest) toks2
              simp only [M, wSum_append, wSum, wNT, vTop_cons] at *
              omega
    case MaybeAndV =>
      by_cases hv : is_and_v toks
      · have hstep : parseStep ctx P (⟨toks, .MaybeAndV :: rest, term⟩ : PState ExtT) =
            .cont ⟨toks, .Expression :: .AndV :: rest, term⟩ := by simp [parseStep, hv]
        rw [hstep] at h
        cases h
        simp only [M, wSum, wNT, vTop_cons, hv, if_true]
        omega
      · have hstep : parseStep ctx P (⟨toks, .MaybeAndV :: rest, term⟩ : PState ExtT) =
            .cont ⟨toks, rest, term⟩ := by simp [parseStep, hv]
        rw [hstep] at h
        cases h
        have hv3 := vTop_le_three rest toks
        simp only [M, wSum, wNT, vTop_cons, hv, Bool.false_eq_true, if_false]
        omega
    case MaybeSwap =>
      cases toks with
      | nil =>
        rw [parseStep_maybeSwap_no ctx P [] rest term (by simp)] at h
        cases h
        have hv3 := vTop_le_three rest []
        simp only [M, wSum, wNT, vTop_cons]
        omega
      | cons t ts =>
        by_cases hsw : t = Tk.Swap
        · subst hsw
          cases term with
          | nil => simp [parseStep, reduce1] at h
          | cons top tr =>
            cases hmk : mkChecked ctx P (.Swap top) with
            | error e => simp [parseStep, reduce1, hmk] at h
            | ok ms =>
              have hstep : parseStep ctx P
                  (⟨Tk.Swap :: ts, .MaybeSwap :: rest, top :: tr⟩ : PState ExtT) =
                  .cont ⟨ts, .MaybeSwap :: rest, ms :: tr⟩ := by
                simp [parseStep, reduce1, hmk]
              rw [hstep] at h
              cases h
              simp only [M, wSum, wNT, vTop_cons, List.length_cons]
              omega
        · rw [parseStep_maybeSwap_no ctx P (t :: ts) rest term (by simpa using hsw)] at h
          cases h
          have hv3 := vTop_le_three rest (t :: ts)
          simp only [M, wSum, wNT, vTop_cons]
          omega
    case Alt =>
      cases toks with
      | nil => simp [parseStep] at h
      | cons t ts =>
        cases t <;> try simp [parseStep] at h
        case ToAltStack =>
          cases term with
          | nil => simp [parseStep, reduce1] at h
          | cons top tr =>
            cases hmk : mkChecked ctx P (.Alt top) with
            | error e => simp [parseStep, reduce1, hmk] at h
            | ok ms =>
              simp [reduce1, hmk] at h
              subst h
              have hv3 := vTop_le_three rest ts
              simp only [M, wSum, wNT, vTop_cons, List.length_cons]
              omega
    case Check =>
      cases term with
      | nil => simp [parseStep, reduce1] at h
      | cons top tr =>
        cases hmk : mkChecked ctx P (.Check top) with
        | error e => simp [parseStep, reduce1, hmk] at h
        | ok ms =>
          have hstep : parseStep ctx P (⟨toks, .Check :: rest, top :: tr⟩ : PState ExtT) =
              .cont ⟨toks, rest, ms :: tr⟩ := by simp [parseStep, reduce1, hmk]
          rw [hstep] at h
          cases h
          have hv3 := vTop_le_three rest toks
          simp only [M, wSum, wNT, vTop_cons]
          omega
    case DupIf =>
      cases term with
      | nil => simp [parseStep, reduce1] at h
      | cons top tr =>
        cases hmk : mkChecked ctx P (.DupIf top) with
        | error e => simp [parseStep, reduce1, hmk] at h
        | ok ms =>
          have hstep : parseStep ctx P (⟨toks, .DupIf :: rest, top :: tr⟩ : PState ExtT) =
              .cont ⟨toks, rest, ms :: tr⟩ := by simp [parseStep, reduce1, hmk]
          rw [hstep] at h
          cases h
          have hv3 := vTop_le_three rest toks
          simp only [M, wSum, wNT, vTop_cons]
          omega
    case Verify =>
      cases term with
      | nil => simp [parseStep, reduce1] at h
      | cons top tr =>
        cases hmk : mkChecked ctx P (.Verify top) with
        | error e => simp [parseStep, reduce1, hmk] at h
        | ok ms =>
          have hstep : parseStep ctx P (⟨toks, .Verify :: rest, top :: tr⟩ : PState ExtT) =
              .cont ⟨toks, rest, ms :: tr⟩ := by simp [parseStep, reduce1, hmk]
          rw [hstep] at h
          cases h
          have hv3 := vTop_le_three rest toks
          simp only [M, wSum, wNT, vTop_cons]
          omega
    case NonZero =>
      cases term with
      | nil => simp [parseStep, reduce1] at h
      | cons top tr =>
        cases hmk : mkChecked ctx P (.NonZero top) with
        | error e => simp [parseStep, reduce1, hmk] at h
        | ok ms =>
          have hstep : parseStep ctx P (⟨toks, .NonZero :: rest, top :: tr⟩ : PState ExtT) =
              .cont ⟨toks, rest, ms :: tr⟩ := by simp [parseStep, reduce1, hmk]
          rw [hstep] at h
          cases h
          have hv3 := vTop_le_three rest toks
          simp only [M, wSum, wNT, vTop_cons]
          omega
    case ZeroNotEqual =>
      cases term with
      | nil => simp [parseStep, reduce1] at h
      | cons top tr =>
        cases hmk : mkChecked ctx P (.ZeroNotEqual top) with
        | error e => simp [parseStep, reduce1, hmk] at h
        | ok ms =>
          have hstep : parseStep ctx P
              (⟨toks, .ZeroNotEqual :: rest, top :: tr⟩ : PState ExtT) =
              .cont ⟨toks, rest, ms :: tr⟩ := by simp [parseStep, reduce1, hmk]
          rw [hstep] at h
          cases h
          have hv3 := vTop_le_three rest toks
          simp only [M, wSum, wNT, vTop_cons]
          omega
    case AndV =>
      by_cases hv : is_and_v toks
      · have hstep : parseStep ctx P (⟨toks, .AndV :: rest, term⟩ : PState ExtT) =
            .cont ⟨toks, .MaybeAndV :: .AndV :: rest, term⟩ := by simp [parseStep, hv]
        rw [hstep] at h
        cases h
        simp only [M, wSum, wNT, vTop_cons, hv, if_true]
        omega
      · cases term with
        | nil => simp [parseStep, hv, reduce2] at h
        | cons a term2 =>
          cases term2 with
          | nil => simp [parseStep, hv, reduce2] at h
          | cons b tr =>
            cases hmk : mkChecked ctx P (.AndV a b) with
            | error e => simp [parseStep, hv, reduce2, hmk] at h
            | ok ms =>
              have hstep : parseStep ctx P
                  (⟨toks, .AndV :: rest, a :: b :: tr⟩ : PState ExtT) =
                  .cont ⟨toks, rest, ms :: tr⟩ := by simp [parseStep, hv, reduce2, hmk]
              rw [hstep] at h
              cases h
              have hv3 := vTop_le_three rest toks
              simp only [M, wSum, wNT, vTop_cons]
              omega
    case AndB =>
      cases term with
      | nil => simp [parseStep, reduce2] at h
      | cons a term2 =>
        cases term2 with
        | nil => simp [parseStep, reduce2] at h
        | cons b tr =>
          cases hmk : mkChecked ctx P (.AndB a b) with
          | error e => simp [parseStep, reduce2, hmk] at h
          | ok ms =>
            have hstep : parseStep ctx P (⟨toks, .AndB :: rest, a :: b :: tr⟩ : PState ExtT) =
                .cont ⟨toks, rest, ms :: tr⟩ := by simp [parseStep, reduce2, hmk]
            rw [hstep] at h
            cases h
            have hv3 := vTop_le_three rest toks
            simp only [M, wSum, wNT, vTop_cons]
            omega
    case OrB =>
      cases term with
      | nil => simp [parseStep, reduce2] at h
      | cons a term2 =>
        cases term2 with
        | nil => simp [parseStep, reduce2] at h
        | cons b tr =>
          cases hmk : mkChecked ctx P (.OrB a b) with
          | error e => simp [parseStep, reduce2, hmk] at h
          | ok ms =>
            have hstep : parseStep ctx P (⟨toks, .OrB :: rest, a :: b :: tr⟩ : PState ExtT) =
                .cont ⟨toks, rest, ms :: tr⟩ := by simp [parseStep, reduce2, hmk]
            rw [hstep] at h
            cases h
            have hv3 := vTop_le_three rest toks
            simp only [M, wSum, wNT, vTop_cons]
            omega
    case OrC =>
      cases term with
      | nil => simp [parseStep, reduce2] at h
      | cons a term2 =>
        cases term2 with
        | nil => simp [parseStep, reduce2] at h
        | cons b tr =>
          cases hmk : mkChecked ctx P (.OrC a b) with
          | error e => simp [parseStep, reduce2, hmk] at h
          | ok ms =>
            have hstep : parseStep ctx P (⟨toks, .OrC :: rest, a :: b :: tr⟩ : PState ExtT) =
                .cont ⟨toks, rest, ms :: tr⟩ := by simp [parseStep, reduce2, hmk]
            rw [hstep] at h
            cases h
            have hv3 := vTop_le_three rest toks
            simp only [M, wSum, wNT, vTop_cons]
            omega
    case OrD =>
      cases term with
      | nil => simp [parseStep, reduce2] at h
      | cons a term2 =>
        cases term2 with
        | nil => simp [parseStep, reduce2] at h
        | cons b tr =>
          cases hmk : mkChecked ctx P (.OrD a b) with
          | error e => simp [parseStep, reduce2, hmk] at h
          | ok ms =>
            have hstep : parseStep ctx P (⟨toks, .OrD :: rest, a :: b :: tr⟩ : PState ExtT) =
                .cont ⟨toks, rest, ms :: tr⟩ := by simp [parseStep, reduce2, hmk]
            rw [hstep] at h
            cases h
            have hv3 := vTop_le_three rest toks
            simp only [M, wSum, wNT, vTop_cons]
            omega
    case Tern =>
      cases term with
      | nil => simp [parseStep, reduceTern] at h
      | cons a term2 =>
        cases term2 with
        | nil => simp [parseStep, reduceTern] at h
        | cons b term3 =>
          cases term3 with
          | nil => simp [parseStep, reduceTern] at h
          | cons c tr =>
            cases hty : P.tyF (.AndOr a c b) with
            | none => simp [parseStep, reduceTern, hty] at h
            | some ty =>
              cases hex : P.exF (.AndOr a c b) with
              | none => simp [parseStep, reduceTern, hty, hex] at h
              | some ext =>
                have hstep : parseStep ctx P
                    (⟨toks, .Tern :: rest, a :: b :: c :: tr⟩ : PState ExtT) =
                    .cont ⟨toks, rest, MSNode.mk (.AndOr a c b) ty ext :: tr⟩ := by
                  simp [parseStep, reduceTern, hty, hex]
                rw [hstep] at h
                cases h
                have hv3 := vTop_le_three rest toks
                simp only [M, wSum, wNT, vTop_cons]
                omega
    case ThreshW k n =>
      cases toks with
      | nil => simp [parseStep] at h
      | cons t ts =>
        by_cases ht : t = Tk.Add
        · subst ht
          have hstep : parseStep ctx P
              (⟨Tk.Add :: ts, .ThreshW k n :: rest, term⟩ : PState ExtT) =
              .cont ⟨ts, .Expression :: .MaybeSwap :: .ThreshW k (n + 1) :: rest, term⟩ := by
            simp [parseStep]
          rw [hstep] at h
          cases h
          simp only [M, wSum, wNT, vTop_cons, List.length_cons]
          omega
        · rw [parseStep_threshW_close ctx P t ts rest term k n ht] at h
          cases h
          simp only [M, wSum, wNT, vTop_cons]
          omega
    case ThreshE k n =>
      by_cases hn : n ≤ term.length
      · cases hred : reduce0 ctx P (.Thresh k (term.take n)) (term.drop n) with
        | error e => simp [parseStep, if_pos hn, hred] at h
        | ok stack' =>
          obtain ⟨ms, rfl⟩ := reduce0_ok_cons _ _ _ _ _ hred
          have hstep : parseStep ctx P (⟨toks, .ThreshE k n :: rest, term⟩ : PState ExtT) =
              .cont ⟨toks, rest, ms :: term.drop n⟩ := by simp [parseStep, if_pos hn, hred]
          rw [hstep] at h
          cases h
          have hv3 := vTop_le_three rest toks
          simp only [M, wSum, wNT, vTop_cons]
          omega
      · simp [parseStep, if_neg hn] at h
    case EndIf =>
      cases toks with
      | nil => simp [parseStep] at h
      | cons t ts =>
        cases t <;> try simp [parseStep] at h
        case Else =>
          subst h
          simp only [M, wSum, wNT, vTop_cons, List.length_cons]
          omega
        case If =>
          cases ts with
          | nil => simp [parseStep] at h
          | cons t2 ts2 =>
            cases t2 <;> try simp [parseStep] at h
            case Dup =>
              subst h
              have hv3 := vTop_le_three (NonTerm.DupIf :: rest) ts2
              simp only [M, wSum, wNT, vTop_cons, List.length_cons] at hv3 ⊢
              omega
            case ZeroNotEqual =>
              cases ts2 with
              | nil => simp [parseStep] at h
              | cons t3 ts3 =>
                cases t3 <;> try simp [parseStep] at h
                case Size =>
                  subst h
                  simp only [M, wSum, wNT, vTop_cons, List.length_cons]
                  omega
        case NotIf =>
          subst h
          simp only [M, wSum, wNT, vTop_cons, List.length_cons]
          omega
    case EndIfNotIf =>
      cases toks with
      | nil => simp [parseStep] at h
      | cons t ts =>
        by_cases hid : t = Tk.IfDup
        · subst hid
          have hstep : parseStep ctx P
              (⟨Tk.IfDup :: ts, .EndIfNotIf :: rest, term⟩ : PState ExtT) =
              .cont ⟨ts, .Expression :: .OrD :: rest, term⟩ := by simp [parseStep]
          rw [hstep] at h
          cases h
          simp only [M, wSum, wNT, vTop_cons, List.length_cons]
          omega
        · rw [parseStep_endIfNotIf_orC ctx P t ts rest term hid] at h
          cases h
          simp only [M, wSum, wNT, vTop_cons]
          omega
    case EndIfElse =>
      cases toks with
      | nil => simp [parseStep] at h
      | cons t ts =>
        cases t <;> try simp [parseStep] at h
        case If =>
          cases term with
          | nil => simp [parseStep, reduce2] at h
          | cons a term2 =>
            cases term2 with
            | nil => simp [parseStep, reduce2] at h
            | cons b tr =>
              cases hmk : mkChecked ctx P (.OrI a b) with
              | error e => simp [parseStep, reduce2, hmk] at h
              | ok ms =>
                simp [reduce2, hmk] at h
                subst h
                have hv3 := vTop_le_three rest ts
                simp only [M, wSum, wNT, vTop_cons, List.length_cons]
                omega
        case NotIf =>
          subst h
          simp only [M, wSum, wNT, vTop_cons, List.length_cons]
          omega

/-- With fuel above the measure, the loop never runs out of fuel. -/
theorem parseLoop_no_noFuel {ExtT : Type} (ctx : Ctx) (P : Params ExtT)
    (hP : ∀ l e l', P.extParse l = some (e, l') → l'.length < l.length) :
    ∀ (fuel : Nat) (st : PState ExtT), M st < fuel → parseLoop ctx P fuel st ≠ .noFuel := by
  intro fuel
  induction fuel with
  | zero => intro st hm; exact absurd hm (by omega)
  | succ n ih =>
    intro st hm
    cases hstep : parseStep ctx P st with
    | cont st' =>
      obtain ⟨toks, nts, term⟩ := st
      have hdec := parseStep_measure ctx P hP toks nts term st' hstep
      simp only [parseLoop, hstep]
      exact ih st' (by omega)
    | done ms => simp [parseLoop, hstep]
    | fail e => simp [parseLoop, hstep]
    | crash => simp [parseLoop, hstep]

/-- Claim C10: for every token stream (and any collaborator functions),
`parse` never panics — every `pop().unwrap()` has an element to pop and
the final assertions hold — and, provided the extension parser consumes at
least one token on success, it terminates with either a single tree or a
typed error. -/
theorem C10_parse_total_no_panic {ExtT : Type} (ctx : Ctx) (P : Params ExtT)
    (toks : List Tk) :
    parse ctx P toks ≠ .crash ∧
    ((∀ l e l', P.extParse l = some (e, l') → l'.length < l.length) →
      (∃ ms, parse ctx P toks = .ok ms) ∨ (∃ e, parse ctx P toks = .err e)) := by
  constructor
  · exact parseLoop_no_crash ctx P _ _ (PInv_init toks)
  · intro hP
    cases hout : parse ctx P toks with
    | ok ms => exact Or.inl ⟨ms, rfl⟩
    | err e => exact Or.inr ⟨e, rfl⟩
    | crash =>
      exact absurd hout (parseLoop_no_crash ctx P _ _ (PInv_init toks))
    | noFuel =>
      refine absurd hout (parseLoop_no_noFuel ctx P hP _ _ ?_)
      simp only [M, wSum, wNT, vTop]
      omega

/-- Witness for C10 at a concrete one-token stream. -/
theorem C10_parse_total_no_panic_witness :
    (∃ ms, parse .legacy trivialParams [Tk.Num 1] = .ok ms) ∨
    (∃ e, parse .legacy trivialParams [Tk.Num 1] = .err e) :=
  (C10_parse_total_no_panic .legacy trivialParams [Tk.Num 1]).2
    (fun l e l' hl => by simp [trivialParams] at hl)
